import Mathlib

/-!
# Verification of syft-installer against its specification

A shallow embedding, in Lean 4, of the parts of the `syft-installer`
Python code base that the specification's testable properties talk about:

* `syft_installer/_validators.py` — `validate_email`, `validate_otp`,
  `sanitize_otp` (together with faithful models of the Python string
  primitives they use: `str.strip`, `str.upper`, `str.replace(" ", "")`,
  `re.match` for the two anchored patterns, and
  `email.utils.parseaddr` from the CPython standard library);
* `syft_installer/_config.py` — `Config.save` / `Config.load` over a JSON
  value model;
* `syft_installer/_auth.py` — `Authenticator.verify_otp` over a model of
  the HTTP exchange;
* `syft_installer/_utils.py` — `get_platform_info`, `get_binary_url`;
* `syft_installer/_process.py` — `ProcessManager.start/stop/is_running/
  find_daemons/kill_daemon/kill_all_daemons` over an explicit model of the
  process environment.

Strings are modelled as `List Char` (Unicode scalar values, matching
Python's `str` as a sequence of code points).  Machine-facing effects
(filesystem, HTTP, subprocesses, signals) are modelled by explicit data
passed to the embedded functions.
-/

namespace SyftInstaller

/-! ## Python string primitives -/

/-- The set of code points that Python treats as whitespace: this single
set is used both by `str.strip()` / `str.isspace()` and by `\s` in `re`
patterns applied to `str` (verified to coincide in CPython 3.11). -/
def isPySpaceNat (n : Nat) : Bool :=
  n = 9 || n = 10 || n = 11 || n = 12 || n = 13 ||
  n = 28 || n = 29 || n = 30 || n = 31 || n = 32 ||
  n = 133 || n = 160 || n = 0x1680 ||
  (0x2000 ≤ n && n ≤ 0x200a) ||
  n = 0x2028 || n = 0x2029 || n = 0x202f || n = 0x205f || n = 0x3000

/-- Python whitespace test on a character (`str.isspace` / regex `\s`). -/
def isPySpace (c : Char) : Bool := isPySpaceNat c.toNat

/-- Model of `str.upper()` applied to one code point, for the ASCII range
(`'a'..'z'` map down by 32; everything else is fixed).  This matches the
code points that can occur in the OTP / email flows; the full Unicode
case-mapping table is not modelled. -/
def pyUpper (c : Char) : Char :=
  if 97 ≤ c.toNat ∧ c.toNat ≤ 122 then Char.ofNat (c.toNat - 32) else c

/-- `str.strip()` from the left: drop leading Python whitespace. -/
def pyLStrip (s : List Char) : List Char := s.dropWhile isPySpace

/-- `str.strip()` from the right: drop trailing Python whitespace. -/
def pyRStrip (s : List Char) : List Char :=
  (s.reverse.dropWhile isPySpace).reverse

/-- Model of `str.strip()` with no argument: remove leading and trailing
Python whitespace. -/
def pyStrip (s : List Char) : List Char := pyRStrip (pyLStrip s)

/-- Model of `str.lower()` applied to one code point, for the ASCII
range (`'A'..'Z'` map up by 32; everything else is fixed). -/
def pyLowerChar (c : Char) : Char :=
  if 65 ≤ c.toNat ∧ c.toNat ≤ 90 then Char.ofNat (c.toNat + 32) else c

/-- `str.lower()` on a whole string. -/
def pyLower (s : String) : String := String.mk (s.data.map pyLowerChar)

/-! ## `_validators.py` -/

/-- `sanitize_otp` (`_validators.py:37-39`):
`return otp.strip().upper().replace(" ", "")` — strip outer whitespace,
uppercase, then delete every space character U+0020 (`str.replace` removes
only the exact character `" "`, not other whitespace). -/
def sanitize_otp (s : List Char) : List Char :=
  ((pyStrip s).map pyUpper).filter (fun c => c ≠ ' ')

/-- The character class `[0-9A-Z]` of the OTP pattern. -/
def isUpperAlnum (c : Char) : Bool :=
  (48 ≤ c.toNat && c.toNat ≤ 57) || (65 ≤ c.toNat && c.toNat ≤ 90)

/-- Semantics of CPython `re.match(pat, s)` for an anchored pattern
`^body$` (no `re.MULTILINE`): the whole string must match `body`, except
that `$` also matches just before one trailing `'\n'`.  `core` is the
matcher for `body` against an exact string. -/
def reDollarMatch (core : List Char → Bool) (s : List Char) : Bool :=
  core s || (s.getLast? == some '\n' && core s.dropLast)

/-- `validate_otp` (`_validators.py:24-34`): empty strings are rejected
(`if not otp`), then `re.match(r"^[0-9A-Z]{8}$", otp)` decides. -/
def validate_otp (s : List Char) : Bool :=
  if s = [] then false
  else reDollarMatch (fun t => t.length == 8 && t.all isUpperAlnum) s

/-- Character class `[^\s@]` of the email pattern. -/
def notWsAt (c : Char) : Bool := !isPySpace c && c ≠ '@'

/-- Matcher for the email pattern body `[^\s@]+@[^\s@]+\.[^\s@]+` against
an exact string: a non-empty `@`-free, whitespace-free local part, one
`'@'`, then a non-empty whitespace-free `@`-free rest that contains a
`'.'` in an interior position (so that both sides of some dot are
non-empty).  This is exactly the set of strings the regex body matches,
since both character classes exclude `'@'` and whitespace but allow
`'.'`. -/
def emailRegexCore (s : List Char) : Bool :=
  let a := s.takeWhile (fun c => c ≠ '@')
  match s.drop a.length with
  | [] => false
  | _ :: b =>
    a ≠ [] && a.all (fun c => !isPySpace c) &&
    b ≠ [] && b.all notWsAt &&
    (b.drop 1).dropLast.any (fun c => c = '.')

/-- The full `re.match(r"^[^\s@]+@[^\s@]+\.[^\s@]+$", email)` test. -/
def emailRegexMatch (s : List Char) : Bool := reDollarMatch emailRegexCore s

/-! ## `email.utils.parseaddr` (CPython `email/_parseaddr.py`)

`validate_email` calls `email.utils.parseaddr`; the port below follows
CPython 3.11's `AddrlistClass` method by method.  The parser state is the
immutable input `field`, a cursor `pos`, and the accumulated
`commentlist`; each Python method becomes a function from state to
(result, state).  Python `while` loops become fuel-indexed recursion; the
top entry point supplies fuel that is amply sufficient because every loop
iteration of the original either consumes a character or immediately
terminates. -/

/-- Parser state of `AddrlistClass`: the unparsed input, the cursor, and
the comments collected so far. -/
structure PAState where
  field : List Char
  pos : Nat
  commentlist : List (List Char)
deriving DecidableEq

/-- `self.LWS = ' \t'` membership. -/
def isLWSc (c : Char) : Bool := c = ' ' || c = '\t'

/-- `self.CR = '\r\n'` membership. -/
def isCRc (c : Char) : Bool := c = '\r' || c = '\n'

/-- `self.FWS = self.LWS + self.CR` membership. -/
def isFWSc (c : Char) : Bool := isLWSc c || isCRc c

/-- `self.specials = '()<>@,:;.\"[]'` membership. -/
def isSpecialc (c : Char) : Bool :=
  c = '(' || c = ')' || c = '<' || c = '>' || c = '@' || c = ',' ||
  c = ':' || c = ';' || c = '.' || c = '"' || c = '[' || c = ']'

/-- `self.atomends = self.specials + self.LWS + self.CR` membership. -/
def isAtomEnd (c : Char) : Bool := isSpecialc c || isLWSc c || isCRc c

/-- `self.phraseends = self.atomends.replace('.', '')` membership. -/
def isPhraseEnd (c : Char) : Bool := isAtomEnd c && !(c = '.')

/-- Module-level `quote(str)`: double every backslash, escape every
double quote. -/
def pyQuoteAddr (s : List Char) : List Char :=
  s.foldr (fun c acc =>
    if c = '\\' then '\\' :: '\\' :: acc
    else if c = '"' then '\\' :: '"' :: acc
    else c :: acc) []

/-- `getatom(atomends)`: collect characters until one in `ends` (or the
end of the field); the cursor advances past the collected run. -/
def getatom (ends : Char → Bool) (st : PAState) : List Char × PAState :=
  let a := (st.field.drop st.pos).takeWhile (fun c => !ends c)
  (a, { st with pos := st.pos + a.length })

/-- Loop body of `getdelimited(beginchar, endchars, allowcomments)`,
entered after the opening delimiter was consumed.  `quoted` is the "the
previous character was a backslash" flag; on `'('` with `allowcomments`
the comment text is parsed recursively (`getcomment`) and appended.
Running out of fuel returns the accumulator (never reached with the fuel
supplied by `parseaddr`). -/
def getdelimLoop (endc : Char → Bool) (allowc : Bool) :
    Nat → Bool → List Char → PAState → List Char × PAState
  | 0, _, acc, st => (acc, st)
  | fuel + 1, quoted, acc, st =>
    match st.field[st.pos]? with
    | none => (acc, st)
    | some c =>
      if quoted then
        getdelimLoop endc allowc fuel false (acc ++ [c])
          { st with pos := st.pos + 1 }
      else if endc c then (acc, { st with pos := st.pos + 1 })
      else if allowc && c = '(' then
        let r := getdelimLoop (fun c => c = ')' || c = '\r') true fuel false
          [] { st with pos := st.pos + 1 }
        getdelimLoop endc allowc fuel false (acc ++ r.1) r.2
      else if c = '\\' then
        getdelimLoop endc allowc fuel true acc { st with pos := st.pos + 1 }
      else
        getdelimLoop endc allowc fuel false (acc ++ [c])
          { st with pos := st.pos + 1 }

/-- `getdelimited(beginchar, endchars, allowcomments)`: empty result if
the cursor is not on `beginchar`, otherwise run the loop after it. -/
def getdelimited (begc : Char) (endc : Char → Bool) (allowc : Bool)
    (fuel : Nat) (st : PAState) : List Char × PAState :=
  match st.field[st.pos]? with
  | none => ([], st)
  | some c =>
    if c = begc then
      getdelimLoop endc allowc fuel false [] { st with pos := st.pos + 1 }
    else ([], st)

/-- `getcomment()` = `getdelimited('(', ')\r', True)`. -/
def getcomment (fuel : Nat) (st : PAState) : List Char × PAState :=
  getdelimited '(' (fun c => c = ')' || c = '\r') true fuel st

/-- `getquote()` = `getdelimited('"', '"\r', False)`. -/
def getquote (fuel : Nat) (st : PAState) : List Char × PAState :=
  getdelimited '"' (fun c => c = '"' || c = '\r') false fuel st

/-- `getdomainliteral()` = `'[%s]' % getdelimited('[', ']\r', False)`. -/
def getdomainliteral (fuel : Nat) (st : PAState) : List Char × PAState :=
  let r := getdelimited '[' (fun c => c = ']' || c = '\r') false fuel st
  ('[' :: r.1 ++ [']'], r.2)

/-- Loop of `gotonext()`: skip whitespace (collecting only `' '`/`'\t'`
into the returned string, silently dropping `'\r'`/`'\n'`) and collect
`(...)` comments into `commentlist`, stopping at the first other
character. -/
def gotonextLoop : Nat → List Char → PAState → List Char × PAState
  | 0, acc, st => (acc, st)
  | fuel + 1, acc, st =>
    match st.field[st.pos]? with
    | none => (acc, st)
    | some c =>
      if isLWSc c || c = '\n' || c = '\r' then
        gotonextLoop fuel (if c = '\n' || c = '\r' then acc else acc ++ [c])
          { st with pos := st.pos + 1 }
      else if c = '(' then
        let r := getcomment fuel st
        gotonextLoop fuel acc
          { r.2 with commentlist := r.2.commentlist ++ [r.1] }
      else (acc, st)

/-- `gotonext()`. -/
def gotonext (fuel : Nat) (st : PAState) : List Char × PAState :=
  gotonextLoop fuel [] st

/-- Loop of `getphraselist()`: skip folding whitespace, collect quoted
strings (unwrapped), collect comments into `commentlist`, stop on a
phrase-ending special, otherwise collect an atom (with `phraseends`). -/
def getphraselistLoop : Nat → List (List Char) → PAState →
    List (List Char) × PAState
  | 0, acc, st => (acc, st)
  | fuel + 1, acc, st =>
    match st.field[st.pos]? with
    | none => (acc, st)
    | some c =>
      if isFWSc c then
        getphraselistLoop fuel acc { st with pos := st.pos + 1 }
      else if c = '"' then
        let q := getquote fuel st
        getphraselistLoop fuel (acc ++ [q.1]) q.2
      else if c = '(' then
        let r := getcomment fuel st
        getphraselistLoop fuel acc
          { r.2 with commentlist := r.2.commentlist ++ [r.1] }
      else if isPhraseEnd c then (acc, st)
      else
        let a := getatom isPhraseEnd st
        getphraselistLoop fuel (acc ++ [a.1]) a.2

/-- Loop of `getdomain()` with the domain accumulated flatly: skip
`' '`/`'\t'`, collect comments, collect domain literals, collect `'.'`,
abort with the empty domain on a second `'@'` (bpo-34155), stop on any
other atom-ending character, otherwise collect an atom. -/
def getdomainLoop : Nat → List Char → PAState → List Char × PAState
  | 0, acc, st => (acc, st)
  | fuel + 1, acc, st =>
    match st.field[st.pos]? with
    | none => (acc, st)
    | some c =>
      if isLWSc c then getdomainLoop fuel acc { st with pos := st.pos + 1 }
      else if c = '(' then
        let r := getcomment fuel st
        getdomainLoop fuel acc
          { r.2 with commentlist := r.2.commentlist ++ [r.1] }
      else if c = '[' then
        let r := getdomainliteral fuel st
        getdomainLoop fuel (acc ++ r.1) r.2
      else if c = '.' then
        getdomainLoop fuel (acc ++ ['.']) { st with pos := st.pos + 1 }
      else if c = '@' then ([], st)
      else if isAtomEnd c then (acc, st)
      else
        let a := getatom isAtomEnd st
        getdomainLoop fuel (acc ++ a.1) a.2

/-- `getdomain()`. -/
def getdomainFn (fuel : Nat) (st : PAState) : List Char × PAState :=
  getdomainLoop fuel [] st

/-- Drop the last piece of `aslist` when it is pure whitespace
(`if aslist and not aslist[-1].strip(): aslist.pop()`). -/
def popBlankLast (acc : List (List Char)) : List (List Char) :=
  match acc.getLast? with
  | some lastp => if pyStrip lastp = [] then acc.dropLast else acc
  | none => acc

/-- Loop of `getaddrspec()` over a list of collected pieces: a `'.'`
(popping a trailing blank piece first), a re-quoted quoted string, a stop
at any other atom-ending character (popping a trailing blank piece), or
an atom; after each non-stopping piece, intervening whitespace from
`gotonext` is preserved as its own piece (except after `'.'`). -/
def getaddrspecLoop : Nat → List (List Char) → PAState →
    List (List Char) × PAState
  | 0, acc, st => (acc, st)
  | fuel + 1, acc, st =>
    match st.field[st.pos]? with
    | none => (acc, st)
    | some c =>
      if c = '.' then
        let acc2 := popBlankLast acc ++ [['.']]
        let g := gotonext fuel { st with pos := st.pos + 1 }
        getaddrspecLoop fuel acc2 g.2
      else if c = '"' then
        let q := getquote fuel st
        let acc2 := acc ++ [('"' :: pyQuoteAddr q.1) ++ ['"']]
        let g := gotonext fuel q.2
        getaddrspecLoop fuel (if g.1 ≠ [] then acc2 ++ [g.1] else acc2) g.2
      else if isAtomEnd c then (popBlankLast acc, st)
      else
        let a := getatom isAtomEnd st
        let acc2 := acc ++ [a.1]
        let g := gotonext fuel a.2
        getaddrspecLoop fuel (if g.1 ≠ [] then acc2 ++ [g.1] else acc2) g.2

/-- `getaddrspec()`: skip leading whitespace, run the piece loop; if the
cursor then rests on `'@'`, parse the domain (empty domain invalidates
the whole addr-spec), else return the joined local pieces alone. -/
def getaddrspecFn (fuel : Nat) (st : PAState) : List Char × PAState :=
  let g0 := gotonext fuel st
  let r := getaddrspecLoop fuel [] g0.2
  match r.2.field[r.2.pos]? with
  | some c =>
    if c = '@' then
      let g1 := gotonext fuel { r.2 with pos := r.2.pos + 1 }
      let d := getdomainFn fuel g1.2
      if d.1 = [] then ([], d.2)
      else (r.1.flatten ++ '@' :: d.1, d.2)
    else (r.1.flatten, r.2)
  | none => (r.1.flatten, r.2)

/-- Loop of `getrouteaddr()` after the `'<'` was consumed: skip a route
(`@domain` parts and `':'`), stop at `'>'`, otherwise parse an addr-spec
and stop one character past it. -/
def getrouteaddrLoop : Nat → Bool → List Char → PAState →
    List Char × PAState
  | 0, _, adlist, st => (adlist, st)
  | fuel + 1, expectroute, adlist, st =>
    match st.field[st.pos]? with
    | none => (adlist, st)
    | some c =>
      if expectroute then
        let d := getdomainFn fuel st
        let g := gotonext fuel d.2
        getrouteaddrLoop fuel false adlist g.2
      else if c = '>' then (adlist, { st with pos := st.pos + 1 })
      else if c = '@' then
        let g := gotonext fuel { st with pos := st.pos + 1 }
        getrouteaddrLoop fuel true adlist g.2
      else if c = ':' then
        let g := gotonext fuel { st with pos := st.pos + 1 }
        getrouteaddrLoop fuel false adlist g.2
      else
        let a := getaddrspecFn fuel st
        (a.1, { a.2 with pos := a.2.pos + 1 })

/-- `getrouteaddr()` (the guard `field[pos] == '<'` always holds at its
single call site; otherwise Python returns `None`, modelled as `""`). -/
def getrouteaddrFn (fuel : Nat) (st : PAState) : List Char × PAState :=
  match st.field[st.pos]? with
  | some c =>
    if c = '<' then
      let g := gotonext fuel { st with pos := st.pos + 1 }
      getrouteaddrLoop fuel false [] g.2
    else ([], st)
  | none => ([], st)

/-- `' '.join` over collected pieces (`SPACE.join`). -/
def joinSpace (ps : List (List Char)) : List Char := List.intercalate [' '] ps

mutual

/-- `getaddress()`: reset `commentlist`, skip whitespace, try a phrase
list, then dispatch on the next character: end of field (bare phrase),
`'.'`/`'@'` (restart as an addr-spec from the saved position), `':'` (a
group, parsed by `groupLoop`), `'<'` (phrase plus route address), or a
bare phrase / stray special.  Finally skip whitespace and one `','`. -/
def getaddressFn : Nat → PAState → List (List Char × List Char) × PAState
  | 0, st => ([], st)
  | fuel + 1, st =>
    let g0 := gotonext fuel { st with commentlist := [] }
    let oldpos := g0.2.pos
    let p := getphraselistLoop fuel [] g0.2
    let g1 := gotonext fuel p.2
    let st1 := g1.2
    let plist := p.1
    let branch : List (List Char × List Char) × PAState :=
      match st1.field[st1.pos]? with
      | none =>
        match plist with
        | [] => ([], st1)
        | p0 :: _ => ([(joinSpace st1.commentlist, p0)], st1)
      | some c =>
        if c = '.' || c = '@' then
          -- Python restores `self.commentlist = oldcl`, but `oldcl` is an
          -- alias of `self.commentlist`, so the restore is a no-op and the
          -- comments collected by the phrase scan are kept.
          let a := getaddrspecFn fuel { st1 with pos := oldpos }
          ([(joinSpace a.2.commentlist, a.1)], a.2)
        else if c = ':' then
          groupLoop fuel [] { st1 with pos := st1.pos + 1 }
        else if c = '<' then
          let r := getrouteaddrFn fuel st1
          if r.2.commentlist ≠ [] then
            ([(joinSpace plist ++ ' ' :: '(' ::
                List.intercalate [' '] r.2.commentlist ++ [')'], r.1)], r.2)
          else ([(joinSpace plist, r.1)], r.2)
        else
          match plist with
          | p0 :: _ => ([(joinSpace st1.commentlist, p0)], st1)
          | [] =>
            if isSpecialc c then ([], { st1 with pos := st1.pos + 1 })
            else ([], st1)
    let g2 := gotonext fuel branch.2
    let st3 := g2.2
    match st3.field[st3.pos]? with
    | some c => if c = ',' then (branch.1, { st3 with pos := st3.pos + 1 })
                else (branch.1, st3)
    | none => (branch.1, st3)

/-- The group (`phrase : addr, addr, ... ;`) loop inside `getaddress`. -/
def groupLoop : Nat → List (List Char × List Char) → PAState →
    List (List Char × List Char) × PAState
  | 0, acc, st => (acc, st)
  | fuel + 1, acc, st =>
    if st.field.length ≤ st.pos then (acc, st)
    else
      let g := gotonext fuel st
      match g.2.field[g.2.pos]? with
      | some c =>
        if c = ';' then (acc, { g.2 with pos := g.2.pos + 1 })
        else
          let a := getaddressFn fuel g.2
          groupLoop fuel (acc ++ a.1) a.2
      | none =>
        let a := getaddressFn fuel g.2
        groupLoop fuel (acc ++ a.1) a.2

end

/-- `getaddrlist()`: parse addresses until the input is exhausted; an
address that parses to nothing contributes the pair `('', '')`. -/
def getaddrlistLoop : Nat → List (List Char × List Char) → PAState →
    List (List Char × List Char) × PAState
  | 0, acc, st => (acc, st)
  | fuel + 1, acc, st =>
    if st.field.length ≤ st.pos then (acc, st)
    else
      let a := getaddressFn fuel st
      getaddrlistLoop fuel (if a.1 ≠ [] then acc ++ a.1 else acc ++ [([], [])]) a.2

/-- `email.utils.parseaddr(addr)`: the first parsed (realname, address)
pair, or `('', '')` when nothing parses. -/
def parseaddr (s : List Char) : List Char × List Char :=
  if s = [] then ([], [])
  else
    match (getaddrlistLoop ((s.length + 2) * (s.length + 2)) [] ⟨s, 0, []⟩).1 with
    | [] => ([], [])
    | p :: _ => p

/-- `validate_email` (`_validators.py:5-21`): non-empty, `parseaddr`
must reproduce the input exactly as the address part, and the anchored
regex must match. -/
def validate_email (s : List Char) : Bool :=
  if s = [] then false
  else
    let parsed := parseaddr s
    if parsed.2 = [] || parsed.2 ≠ s then false
    else emailRegexMatch s

/-! ## `_config.py`: `Config.save` / `Config.load`

JSON documents are modelled by an explicit value type; the config file on
disk is `missing`, present-but-not-JSON (`invalidJson`), or a parsed JSON
value.  `Config` holds one JSON value per dataclass field (Python
dataclasses do not enforce field types at runtime). -/

/-- A JSON value (`json.load` / `json.dump` work on this level; an
`obj` is the decoded `dict`, keys last-wins). -/
inductive Json where
  | null
  | bool (b : Bool)
  | num (n : Int)
  | str (s : String)
  | arr (l : List Json)
  | obj (kvs : List (String × Json))

/-- Python truthiness (`not data[...]`) of a JSON-decoded value. -/
def jsonFalsy : Json → Bool
  | .null => true
  | .bool b => !b
  | .num n => n = 0
  | .str s => s = ""
  | .arr l => l.isEmpty
  | .obj kvs => kvs.isEmpty

/-- Dictionary lookup (`data[k]` / `data.get(k)`), last occurrence wins
as in a Python `dict` built from a JSON object. -/
def jlookup (kvs : List (String × Json)) (k : String) : Option Json :=
  (kvs.reverse.find? (fun kv => kv.1 = k)).map (fun kv => kv.2)

/-- The `Config` dataclass (`_config.py:9-21`): `email`, `data_dir`,
`server_url`, `client_url`, `refresh_token`.  Field values are JSON
values because the Python constructor accepts anything. -/
structure Config where
  email : Json
  data_dir : Json
  server_url : Json
  client_url : Json
  refresh_token : Json

/-- `Config.__post_init__`: replace a falsy `data_dir` by
`RuntimeEnvironment().default_data_dir` (passed in as `defaultDataDir`
since it depends on the host environment). -/
def config_post_init (defaultDataDir : Json) (c : Config) : Config :=
  if jsonFalsy c.data_dir then { c with data_dir := defaultDataDir } else c

/-- State of the config file on disk as seen by `Config.load`. -/
inductive FileState where
  | missing
  | invalidJson
  | valid (j : Json)

/-- `Config.save` (`_config.py:43-62`): the JSON document written to
disk — exactly the five fields, never any access token. -/
def Config.save (c : Config) : Json :=
  .obj [("email", c.email), ("data_dir", c.data_dir),
        ("server_url", c.server_url), ("client_url", c.client_url),
        ("refresh_token", c.refresh_token)]

/-- `Config.load` (`_config.py:64-84`): `None` for a missing file; the
whole body is wrapped in `try/except` returning `None`, which catches a
JSON parse error, a non-dict document (indexing / `cls(**data)` fail), an
unexpected key or a missing `email` key (`TypeError` from `cls(**data)`).
A missing or falsy `data_dir` is replaced by the default before
construction; the dataclass defaults fill the other absent keys, and
`__post_init__` runs on construction. -/
def Config.load (defaultDataDir : Json) (fs : FileState) : Option Config :=
  match fs with
  | .missing => none
  | .invalidJson => none
  | .valid j =>
    match j with
    | .obj kvs =>
      let dd := match jlookup kvs "data_dir" with
        | none => defaultDataDir
        | some v => if jsonFalsy v then defaultDataDir else v
      if (kvs.map (fun kv => kv.1)).all (fun k =>
          k = "email" || k = "data_dir" || k = "server_url" ||
          k = "client_url" || k = "refresh_token") then
        match jlookup kvs "email" with
        | none => none
        | some em =>
          some (config_post_init defaultDataDir
            { email := em
              data_dir := dd
              server_url := (jlookup kvs "server_url").getD (.str "https://syftbox.net")
              client_url := (jlookup kvs "client_url").getD (.str "http://localhost:7938")
              refresh_token := (jlookup kvs "refresh_token").getD .null })
      else none
    | _ => none

/-! ## `_utils.py`: platform resolution -/

/-- `PlatformError`, separated by which of the two checks raised. -/
inductive PlatformError where
  | unsupportedOS (system : String)
  | unsupportedArch (machine : String)
deriving DecidableEq

/-- `get_platform_info` (`_utils.py:98-129`): lower-case the detected
`platform.system()` / `platform.machine()` strings (passed in as
arguments), map them to (`darwin`|`linux`, `amd64`|`arm64`), and raise
`PlatformError` on anything else. -/
def get_platform_info (system machine : String) :
    Except PlatformError (String × String) := do
  let sys := pyLower system
  let mach := pyLower machine
  let os_name ←
    if sys = "darwin" then Except.ok "darwin"
    else if sys = "linux" then Except.ok "linux"
    else Except.error (PlatformError.unsupportedOS sys)
  let arch ←
    if mach = "x86_64" || mach = "amd64" then Except.ok "amd64"
    else if mach = "arm64" || mach = "aarch64" then Except.ok "arm64"
    else Except.error (PlatformError.unsupportedArch mach)
  return (os_name, arch)

/-- `get_binary_url` (`_utils.py:132-147`):
`f"{base_url}/releases/syftbox_client_{os_name}_{arch}.tar.gz"`. -/
def get_binary_url (base_url system machine : String) :
    Except PlatformError String := do
  let p ← get_platform_info system machine
  let binary_name := "syftbox_client_" ++ p.1 ++ "_" ++ p.2
  return base_url ++ ("/releases/" ++ (binary_name ++ ".tar.gz"))

/-! ## `_auth.py`: `Authenticator.verify_otp`

The HTTP exchange is modelled by the outcome of `session.post`: either a
connection-level failure (a `RequestException` with no response) or a
response with a status code and an optional parsed JSON body (`None`
models a body that is not valid JSON). -/

/-- Errors surfaced by `verify_otp`: the two typed library exceptions
plus `TypeError` (which Python would raise uncaught when the decoded
body does not support `in` / indexing as used). -/
inductive AuthErr where
  | validationError (msg : String)
  | authenticationError (msg : String)
  | typeError
deriving DecidableEq

/-- An HTTP response: status code and decoded JSON body, if any. -/
structure HttpResponse where
  status : Nat
  body : Option Json

/-- Outcome of `session.post`. -/
inductive PostResult where
  | resp (r : HttpResponse)
  | connError

/-- The returned token pair (snake_case keys). -/
structure TokenPair where
  access_token : Json
  refresh_token : Json

/-- Naive substring test used to model Python's `in` on strings. -/
def listIsInfix (needle hay : List Char) : Bool :=
  (List.range (hay.length + 1)).any (fun i => needle.isPrefixOf (hay.drop i))

/-- Python `"k" in result` for a JSON-decoded `result`: key membership
for a dict, element membership for a list, substring for a string;
`none` models the `TypeError` raised for the other types. -/
def jsonContainsStr (j : Json) (k : String) : Option Bool :=
  match j with
  | .obj kvs => some (kvs.any (fun kv => kv.1 = k))
  | .arr l => some (l.any (fun x => match x with | .str s => s = k | _ => false))
  | .str s => some (listIsInfix k.data s.data)
  | _ => none

/-- `Authenticator.verify_otp` (`_auth.py:66-116`): validate the email,
sanitize then validate the OTP (each failure raises `ValidationError`);
POST; on a connection failure or a non-2xx status other than 401 raise a
generic "Failed to verify OTP" `AuthenticationError`, on 401 raise the
distinct "Invalid OTP or expired" one; on success decode the body, check
both camelCase token keys (`AuthenticationError "Invalid response:
missing tokens"` if either is absent) and return them under snake_case
keys. -/
def verify_otp (email otp : List Char) (post : PostResult) :
    Except AuthErr TokenPair :=
  if validate_email email = false then
    .error (.validationError ("Invalid email address: " ++ String.mk email))
  else
    let otp2 := sanitize_otp otp
    if validate_otp otp2 = false then
      .error (.validationError "Invalid OTP. Must be 8 uppercase alphanumeric characters.")
    else
      match post with
      | .connError => .error (.authenticationError "Failed to verify OTP")
      | .resp r =>
        if 400 ≤ r.status then
          if r.status = 401 then
            .error (.authenticationError "Invalid OTP or expired")
          else .error (.authenticationError "Failed to verify OTP")
        else
          match r.body with
          | none => .error (.authenticationError "Failed to verify OTP")
          | some j =>
            match jsonContainsStr j "accessToken",
                  jsonContainsStr j "refreshToken" with
            | some a, some b =>
              if a = false || b = false then
                .error (.authenticationError "Invalid response: missing tokens")
              else
                match j with
                | .obj kvs =>
                  match jlookup kvs "accessToken", jlookup kvs "refreshToken" with
                  | some a1, some r1 => .ok ⟨a1, r1⟩
                  | _, _ => .error .typeError
                | _ => .error .typeError
            | _, _ => .error .typeError

/-! ## `_process.py`: `ProcessManager`

The OS environment (process table scans, spawn outcomes, signals) is
modelled by explicit data; the manager's own state is its optional child
handle. -/

/-- A spawned child process handle and its behaviour under `stop`:
whether `poll()` already reports an exit when `stop` is entered, whether
`terminate()` raises, and after how many subsequent polls (0-based)
`poll()` first reports an exit (`none` = the child survives SIGTERM). -/
structure Child where
  pid : Nat
  alreadyExited : Bool
  termRaises : Bool
  exitPoll : Option Nat
deriving DecidableEq

/-- `ProcessManager`'s own state: the optional handle of the child this
instance spawned. -/
structure PMState where
  process : Option Child
deriving DecidableEq

/-- Environment for `start`/`is_running`: the outcome of
`pgrep -f "syftbox daemon"` (`none` = the call raised), the `ps aux`
output for the fallback (`none` = that raised too), the child produced by
a spawn (`none` = the daemon died within the startup grace delay), and
whether the binary exists at `config.binary_path`. -/
structure ProcWorld where
  pgrep : Option (Nat × String)
  psOut : Option String
  spawn : Option Child
  binaryExists : Bool

/-- Python `s.split('\n')` (every newline splits; empty pieces kept). -/
def splitOnNL : List Char → List (List Char)
  | [] => [[]]
  | c :: rest =>
    match splitOnNL rest with
    | [] => [[]]
    | h :: t => if c = '\n' then [] :: h :: t else (c :: h) :: t

/-- `is_running` (`_process.py:69-137`): `pgrep` return code 0 with at
least one non-empty line of `stdout.strip().split('\n')` means running;
a non-zero return code means not running; only if `pgrep` itself raised
is `ps aux` scanned for the substring `"syftbox daemon"`. -/
def is_running (w : ProcWorld) : Bool :=
  match w.pgrep with
  | some (rc, out) =>
    if rc = 0 then
      decide (0 < ((splitOnNL (pyStrip out.data)).filter
        (fun p => p ≠ [])).length)
    else false
  | none =>
    match w.psOut with
    | some out => listIsInfix "syftbox daemon".data out.data
    | none => false

/-- Errors `start` can raise. -/
inductive StartErr where
  | binaryNotFound
  | startupFailure
deriving DecidableEq

/-- Result of a `start` call: the manager state afterwards, the returned
PID, and whether a new child was spawned. -/
structure StartResult where
  state : PMState
  pid : Option Nat
  spawned : Bool
deriving DecidableEq

/-- `ProcessManager.start` (`_process.py:21-42`): if a matching process
is already detected, return immediately with the existing handle's PID
(no spawn, no binary check); otherwise require the binary, then spawn in
background (raising when the daemon dies within the startup delay) or in
foreground (spawn and wait, returning no PID). -/
def start (st : PMState) (w : ProcWorld) (background : Bool) :
    Except StartErr StartResult :=
  if is_running w then
    .ok ⟨st, st.process.map (fun p => p.pid), false⟩
  else if w.binaryExists = false then .error .binaryNotFound
  else if background then
    match w.spawn with
    | some child => .ok ⟨⟨some child⟩, some child.pid, true⟩
    | none => .error .startupFailure
  else .ok ⟨⟨w.spawn⟩, none, true⟩

/-- Whether the child is observed as exited by the `k`-th poll (0-based)
after `terminate()`. -/
def pollExited (c : Child) (k : Nat) : Bool :=
  match c.exitPoll with
  | some e => decide (e ≤ k)
  | none => false

/-- Result of a `stop` call: its return value, whether `terminate()` /
`kill()` were invoked, how many `time.sleep(0.5)` calls ran, and the
manager state afterwards. -/
structure StopResult where
  returned : Bool
  terminated : Bool
  killed : Bool
  sleeps : Nat
  state : PMState
deriving DecidableEq

/-- `ProcessManager.stop` (`_process.py:44-67`): without a live child
handle (`self.process` unset, or `poll()` already reports an exit) it
returns `False` doing nothing.  With one, it calls `terminate()` (an
exception there is swallowed and `False` returned), polls up to 10 times
sleeping 0.5 s between polls, calls `kill()` only if the child still has
not exited, and returns `True`.  (`kill()` on the still-live child is
assumed not to raise.)  The handle itself is never cleared. -/
def stop (st : PMState) : StopResult :=
  match st.process with
  | none => ⟨false, false, false, 0, st⟩
  | some c =>
    if c.alreadyExited then ⟨false, false, false, 0, st⟩
    else if c.termRaises then ⟨false, false, false, 0, st⟩
    else
      let sleeps := match c.exitPoll with
        | some e => min e 10
        | none => 10
      ⟨true, true, !pollExited c 10, sleeps, st⟩

/-- One record per matching `ps aux` row (`find_daemons`). -/
structure DaemonInfo where
  user : List Char
  pid : List Char
  cpu : List Char
  mem : List Char
  start : List Char
  time : List Char
  command : List Char
deriving DecidableEq

/-- Python `s.split(None, maxsplit)`: split on whitespace runs at most
`maxsplit` times; leading whitespace of each remainder is dropped, and an
all-whitespace remainder yields nothing. -/
def pySplitNoneMax : Nat → List Char → List (List Char)
  | maxsplit, s =>
    let s1 := s.dropWhile isPySpace
    match s1 with
    | [] => []
    | _ =>
      match maxsplit with
      | 0 => [s1]
      | m + 1 =>
        let tok := s1.takeWhile (fun c => !isPySpace c)
        let rest := s1.dropWhile (fun c => !isPySpace c)
        tok :: pySplitNoneMax m rest

/-- `find_daemons` (`_process.py:139-192`): on any `ps` failure return
`[]`; otherwise take all lines after the header that contain `"syftbox"`
but not `"grep"`, split each into at most 11 whitespace-separated parts,
and keep those with at least 11 parts as records (fields 0-3, 8-10). -/
def find_daemons (psOut : Option (List Char)) : List DaemonInfo :=
  match psOut with
  | none => []
  | some out =>
    ((splitOnNL (pyStrip out)).drop 1).filterMap (fun line =>
      if listIsInfix "syftbox".data line && !listIsInfix "grep".data line then
        let parts := pySplitNoneMax 10 line
        if 11 ≤ parts.length then
          some ⟨parts.getD 0 [], parts.getD 1 [], parts.getD 2 [],
                parts.getD 3 [], parts.getD 8 [], parts.getD 9 [],
                parts.getD 10 []⟩
        else none
      else none)

/-- Outcome of `os.kill(pid, sig)` in the environment. -/
inductive KillOutcome where
  | ok
  | noSuchProcess
  | permissionDenied
deriving DecidableEq

/-- Python `int(s)` restricted to optionally signed ASCII decimal
numerals with surrounding whitespace (the forms a `ps aux` PID column
can take); everything else is a `ValueError`, i.e. `none`. -/
def pyParseInt (s : List Char) : Option Int :=
  let t := pyStrip s
  let sd : Int × List Char := match t with
    | '+' :: r => (1, r)
    | '-' :: r => (-1, r)
    | r => (1, r)
  if sd.2 = [] || sd.2.any (fun c => !c.isDigit) then none
  else some (sd.1 * (sd.2.foldl (fun acc c => acc * 10 + (c.toNat - 48)) 0 : Nat))

/-- `kill_daemon` (`_process.py:194-204`): parse the PID and signal it
(SIGKILL when `force` else SIGTERM); `ValueError`,
`ProcessLookupError` and `PermissionError` all yield `False`. -/
def kill_daemon (killWorld : Int → Bool → KillOutcome) (pid : List Char)
    (force : Bool) : Bool :=
  match pyParseInt pid with
  | none => false
  | some n =>
    match killWorld n force with
    | .ok => true
    | .noSuchProcess => false
    | .permissionDenied => false

/-- `kill_all_daemons` (`_process.py:206-215`): count the found daemons
whose `kill_daemon` succeeded. -/
def kill_all_daemons (killWorld : Int → Bool → KillOutcome)
    (psOut : Option (List Char)) (force : Bool) : Nat :=
  (find_daemons psOut).foldl
    (fun killed d => if kill_daemon killWorld d.pid force then killed + 1
                     else killed) 0

/-! ### Facts about the string primitives -/

theorem char_toNat_ofNat_valid {n : Nat} (h : n < 55296) :
    (Char.ofNat n).toNat = n := by
  have hv : n.isValidChar := Or.inl h
  simp only [Char.ofNat, dif_pos hv, Char.ofNatAux, Char.toNat, UInt32.toNat]
  simp

theorem char_toNat_inj {c d : Char} (h : c.toNat = d.toNat) : c = d := by
  apply Char.ext
  have hb : c.val.toBitVec = d.val.toBitVec := BitVec.eq_of_toNat_eq h
  exact congrArg UInt32.mk hb

theorem pyUpper_toNat (c : Char) :
    (pyUpper c).toNat =
      if 97 ≤ c.toNat ∧ c.toNat ≤ 122 then c.toNat - 32 else c.toNat := by
  unfold pyUpper
  split
  · next h => exact char_toNat_ofNat_valid (by omega)
  · rfl

theorem pyUpper_idem (c : Char) : pyUpper (pyUpper c) = pyUpper c := by
  apply char_toNat_inj
  rw [pyUpper_toNat, pyUpper_toNat]
  by_cases h : 97 ≤ c.toNat ∧ c.toNat ≤ 122
  · rw [if_pos h, if_neg (by omega)]
  · rw [if_neg h, if_neg h]

theorem isPySpace_pyUpper (c : Char) : isPySpace (pyUpper c) = isPySpace c := by
  unfold isPySpace
  rw [pyUpper_toNat]
  by_cases h : 97 ≤ c.toNat ∧ c.toNat ≤ 122
  · rw [if_pos h, Bool.eq_iff_iff]
    unfold isPySpaceNat
    simp only [Bool.or_eq_true, Bool.and_eq_true, decide_eq_true_eq]
    omega
  · rw [if_neg h]

theorem pyUpper_ne_space {c : Char} (h : c ≠ ' ') : pyUpper c ≠ ' ' := by
  intro hcon
  apply h
  apply char_toNat_inj
  have h32 : (pyUpper c).toNat = (' ' : Char).toNat := by rw [hcon]
  rw [pyUpper_toNat] at h32
  have hsp : (' ' : Char).toNat = 32 := rfl
  rw [hsp] at h32 ⊢
  split at h32 <;> omega

theorem pyUpper_eq_space_iff (c : Char) : (pyUpper c = ' ') ↔ c = ' ' := by
  constructor
  · intro h
    by_contra hne
    exact pyUpper_ne_space hne h
  · intro h
    subst h
    rfl

theorem head?_append_left {α : Type} {l₁ l₂ : List α} {c : α}
    (h : l₁.head? = some c) : (l₁ ++ l₂).head? = some c := by
  cases l₁ with
  | nil => simp at h
  | cons a t => simpa using h

theorem pyRStrip_head? {t : List Char} {c : Char}
    (h : (pyRStrip t).head? = some c) : t.head? = some c := by
  obtain ⟨u, hu⟩ := List.dropWhile_suffix (l := t.reverse) isPySpace
  have h2 : (pyRStrip t ++ u.reverse).head? = some c := head?_append_left h
  have h3 : pyRStrip t ++ u.reverse = t := by
    have h4 := congrArg List.reverse hu
    rw [List.reverse_append, List.reverse_reverse] at h4
    exact h4
  rw [h3] at h2
  exact h2

theorem dropWhile_head?_false {α : Type} {p : α → Bool} {l : List α} {c : α}
    (h : (l.dropWhile p).head? = some c) : p c = false := by
  have hm := List.head?_dropWhile_not p l
  rw [h] at hm
  exact hm

theorem pyStrip_head?_not_space {s : List Char} {c : Char}
    (h : (pyStrip s).head? = some c) : isPySpace c = false := by
  have h1 : (pyLStrip s).head? = some c := pyRStrip_head? h
  exact dropWhile_head?_false h1

theorem pyStrip_getLast?_not_space {s : List Char} {c : Char}
    (h : (pyStrip s).getLast? = some c) : isPySpace c = false := by
  have h1 : ((pyLStrip s).reverse.dropWhile isPySpace).head? = some c := by
    rw [pyStrip, pyRStrip, List.getLast?_reverse] at h
    exact h
  exact dropWhile_head?_false h1

theorem dropWhile_eq_self_of_head? {α : Type} {p : α → Bool} {l : List α}
    (h : ∀ c, l.head? = some c → p c = false) : l.dropWhile p = l := by
  cases l with
  | nil => rfl
  | cons a t =>
    have := h a rfl
    simp [List.dropWhile_cons, this]

theorem pyStrip_eq_self {s : List Char}
    (h1 : ∀ c, s.head? = some c → isPySpace c = false)
    (h2 : ∀ c, s.getLast? = some c → isPySpace c = false) : pyStrip s = s := by
  have hl : pyLStrip s = s := dropWhile_eq_self_of_head? h1
  rw [pyStrip, hl, pyRStrip]
  have hr : s.reverse.dropWhile isPySpace = s.reverse := by
    apply dropWhile_eq_self_of_head?
    intro c hc
    rw [List.head?_reverse] at hc
    exact h2 c hc
  rw [hr, List.reverse_reverse]

theorem filter_head?_of_pos {α : Type} {p : α → Bool} {l : List α} {c : α}
    (h : l.head? = some c) (hp : p c = true) : (l.filter p).head? = some c := by
  cases l with
  | nil => simp at h
  | cons a t =>
    have ha : a = c := by simpa using h
    subst ha
    simp [List.filter_cons, hp]

theorem sanitize_otp_head?_not_space {s : List Char} {c : Char}
    (h : (sanitize_otp s).head? = some c) : isPySpace c = false := by
  cases hs : (pyStrip s).head? with
  | none =>
    have hnil : pyStrip s = [] := by
      cases hps : pyStrip s with
      | nil => rfl
      | cons a t => rw [hps] at hs; simp at hs
    rw [sanitize_otp, hnil] at h
    simp at h
  | some c0 =>
    have hc0 : isPySpace c0 = false := pyStrip_head?_not_space hs
    have hu : ((pyStrip s).map pyUpper).head? = some (pyUpper c0) := by
      rw [List.head?_map, hs]
      rfl
    have hne : pyUpper c0 ≠ ' ' := by
      intro hcon
      have hsp : isPySpace (pyUpper c0) = false := by
        rw [isPySpace_pyUpper]; exact hc0
      rw [hcon] at hsp
      exact absurd hsp (by decide)
    have hq : (decide (pyUpper c0 ≠ ' ')) = true := by simp [hne]
    have hf := filter_head?_of_pos (p := fun c => decide (c ≠ ' ')) hu hq
    rw [sanitize_otp] at h
    rw [h] at hf
    injection hf with hcc
    rw [hcc, isPySpace_pyUpper]
    exact hc0

theorem sanitize_otp_getLast?_not_space {s : List Char} {c : Char}
    (h : (sanitize_otp s).getLast? = some c) : isPySpace c = false := by
  have h' : (((pyStrip s).reverse.map pyUpper).filter
      (fun c => decide (c ≠ ' '))).head? = some c := by
    rw [sanitize_otp] at h
    rw [← List.head?_reverse, ← List.filter_reverse, ← List.map_reverse] at h
    exact h
  cases hs : (pyStrip s).getLast? with
  | none =>
    have hnil : (pyStrip s).reverse = [] := by
      cases hps : (pyStrip s).reverse with
      | nil => rfl
      | cons a t =>
        rw [← List.head?_reverse] at hs
        rw [hps] at hs
        simp at hs
    rw [hnil] at h'
    simp at h'
  | some c0 =>
    have hc0 : isPySpace c0 = false := pyStrip_getLast?_not_space hs
    have hu : ((pyStrip s).reverse.map pyUpper).head? = some (pyUpper c0) := by
      rw [List.head?_map, List.head?_reverse, hs]
      rfl
    have hne : pyUpper c0 ≠ ' ' := by
      intro hcon
      have hsp : isPySpace (pyUpper c0) = false := by
        rw [isPySpace_pyUpper]; exact hc0
      rw [hcon] at hsp
      exact absurd hsp (by decide)
    have hq : (decide (pyUpper c0 ≠ ' ')) = true := by simp [hne]
    have hf := filter_head?_of_pos (p := fun c => decide (c ≠ ' ')) hu hq
    rw [h'] at hf
    injection hf with hcc
    rw [hcc, isPySpace_pyUpper]
    exact hc0

theorem pyStrip_sanitize_otp (s : List Char) :
    pyStrip (sanitize_otp s) = sanitize_otp s :=
  pyStrip_eq_self (fun _ hc => sanitize_otp_head?_not_space hc)
    (fun _ hc => sanitize_otp_getLast?_not_space hc)

theorem sanitize_otp_mem_ne_space {s : List Char} {c : Char}
    (h : c ∈ sanitize_otp s) : c ≠ ' ' := by
  rw [sanitize_otp] at h
  have := (List.mem_filter.mp h).2
  simpa using this

theorem sanitize_otp_mem_upper {s : List Char} {c : Char}
    (h : c ∈ sanitize_otp s) : pyUpper c = c := by
  rw [sanitize_otp] at h
  have h1 := (List.mem_filter.mp h).1
  obtain ⟨d, _, rfl⟩ := List.mem_map.mp h1
  exact pyUpper_idem d

theorem map_pyUpper_sanitize_otp (s : List Char) :
    (sanitize_otp s).map pyUpper = sanitize_otp s := by
  have h := List.map_congr_left (l := sanitize_otp s) (f := pyUpper)
    (g := fun a => a) (fun a ha => sanitize_otp_mem_upper ha)
  rw [h, List.map_id']

theorem sanitize_otp_all_ne_space (s : List Char) :
    (sanitize_otp s).all (fun c => c ≠ ' ') = true := by
  rw [List.all_eq_true]
  intro x hx
  simpa using sanitize_otp_mem_ne_space hx

theorem filter_ne_space_sanitize_otp (s : List Char) :
    (sanitize_otp s).filter (fun c => c ≠ ' ') = sanitize_otp s := by
  rw [List.filter_eq_self]
  intro a ha
  simpa using sanitize_otp_mem_ne_space ha

/-! ### Helper lemmas for the config / auth / process claims -/

theorem jlookup_any {kvs : List (String × Json)} {k : String} {v : Json}
    (h : jlookup kvs k = some v) : kvs.any (fun kv => kv.1 = k) = true := by
  unfold jlookup at h
  cases hf : kvs.reverse.find? (fun kv => kv.1 = k) with
  | none => rw [hf] at h; simp at h
  | some kv =>
    have hp := List.find?_some hf
    have hm := List.mem_of_find?_eq_some hf
    rw [List.any_eq_true]
    exact ⟨kv, List.mem_reverse.mp hm, hp⟩

theorem foldl_count_eq_filter_length {α : Type} (f : α → Bool) (l : List α) :
    ∀ n : Nat,
      l.foldl (fun k d => if f d then k + 1 else k) n = n + (l.filter f).length := by
  induction l with
  | nil => intro n; simp
  | cons a t ih =>
    intro n
    simp only [List.foldl_cons, List.filter_cons]
    by_cases h : f a = true
    · rw [if_pos h, if_pos h, ih]
      simp only [List.length_cons]
      omega
    · rw [if_neg h, if_neg h, ih]

/-! ### Claims C1, C2, C6, C7, C8, C9 -/

/-- Claim C1: for every `Config` (whose `data_dir`, by `__post_init__`,
is never falsy), saving and reloading yields a configuration equal on all
five fields; the persisted document has exactly the five config keys and
no access-token key (the access token is not even a `Config` field); a
missing or syntactically invalid config file loads as `None` rather than
raising. -/
theorem C1_config_roundtrip :
    (∀ (dd : Json) (c : Config), jsonFalsy c.data_dir = false →
      Config.load dd (FileState.valid (Config.save c)) = some c) ∧
    (∀ dd : Json, Config.load dd FileState.missing = none) ∧
    (∀ dd : Json, Config.load dd FileState.invalidJson = none) ∧
    (∀ (c : Config) (kvs : List (String × Json)),
      Config.save c = Json.obj kvs →
      kvs.map (fun kv => kv.1) =
        ["email", "data_dir", "server_url", "client_url", "refresh_token"] ∧
      ¬ "access_token" ∈ kvs.map (fun kv => kv.1)) := by
  refine ⟨?_, fun dd => rfl, fun dd => rfl, ?_⟩
  · intro dd c h
    have hn : ¬ (jsonFalsy c.data_dir = true) := by
      rw [h]; exact Bool.false_ne_true
    have e1 : Config.load dd (FileState.valid (Config.save c)) =
        some (config_post_init dd
          { email := c.email
            data_dir := if jsonFalsy c.data_dir then dd else c.data_dir
            server_url := c.server_url
            client_url := c.client_url
            refresh_token := c.refresh_token }) := rfl
    rw [e1, if_neg hn, config_post_init]
    rw [if_neg hn]
  · intro c kvs hk
    have : [("email", c.email), ("data_dir", c.data_dir),
            ("server_url", c.server_url), ("client_url", c.client_url),
            ("refresh_token", c.refresh_token)] = kvs := by
      injection hk
    subst this
    refine ⟨rfl, ?_⟩
    show ¬ "access_token" ∈ (["email", "data_dir", "server_url",
      "client_url", "refresh_token"] : List String)
    decide

/-- Witness for C1 at a concrete configuration. -/
theorem C1_config_roundtrip_witness :
    Config.load (Json.str "/home/u/SyftBox") (FileState.valid (Config.save
      ⟨Json.str "a@b.c", Json.str "/data", Json.str "https://syftbox.net",
       Json.str "http://localhost:7938", Json.null⟩)) =
      some ⟨Json.str "a@b.c", Json.str "/data", Json.str "https://syftbox.net",
            Json.str "http://localhost:7938", Json.null⟩ :=
  C1_config_roundtrip.1 (Json.str "/home/u/SyftBox")
    ⟨Json.str "a@b.c", Json.str "/data", Json.str "https://syftbox.net",
     Json.str "http://localhost:7938", Json.null⟩ (by decide)

/-- Claim C2: `verify_otp` validates the sanitized OTP shape first
(raising `ValidationError`); a 2xx JSON-object response with both
camelCase tokens returns them under snake_case keys; a 401 raises the
"Invalid OTP or expired" `AuthenticationError`, which is distinct from
the generic network-failure error; a 2xx response missing either token
key raises `AuthenticationError "Invalid response: missing tokens"`. -/
theorem C2_verify_otp :
    (∀ (email otp : List Char) (post : PostResult),
      validate_email email = true →
      validate_otp (sanitize_otp otp) = false →
      verify_otp email otp post =
        .error (.validationError
          "Invalid OTP. Must be 8 uppercase alphanumeric characters.")) ∧
    (∀ (email otp : List Char) (r : HttpResponse)
        (kvs : List (String × Json)) (a1 r1 : Json),
      validate_email email = true →
      validate_otp (sanitize_otp otp) = true →
      200 ≤ r.status → r.status ≤ 299 →
      r.body = some (Json.obj kvs) →
      jlookup kvs "accessToken" = some a1 →
      jlookup kvs "refreshToken" = some r1 →
      verify_otp email otp (.resp r) = .ok ⟨a1, r1⟩) ∧
    (∀ (email otp : List Char) (r : HttpResponse),
      validate_email email = true →
      validate_otp (sanitize_otp otp) = true →
      r.status = 401 →
      verify_otp email otp (.resp r) =
        .error (.authenticationError "Invalid OTP or expired")) ∧
    (∀ (email otp : List Char),
      validate_email email = true →
      validate_otp (sanitize_otp otp) = true →
      verify_otp email otp .connError =
        .error (.authenticationError "Failed to verify OTP")) ∧
    (AuthErr.authenticationError "Invalid OTP or expired" ≠
      AuthErr.authenticationError "Failed to verify OTP") ∧
    (∀ (email otp : List Char) (r : HttpResponse) (kvs : List (String × Json)),
      validate_email email = true →
      validate_otp (sanitize_otp otp) = true →
      200 ≤ r.status → r.status ≤ 299 →
      r.body = some (Json.obj kvs) →
      (kvs.any (fun kv => kv.1 = "accessToken") = false ∨
       kvs.any (fun kv => kv.1 = "refreshToken") = false) →
      verify_otp email otp (.resp r) =
        .error (.authenticationError "Invalid response: missing tokens")) := by
  have hne : ∀ e : List Char, validate_email e = true →
      ¬ (validate_email e = false) := by
    intro e he hc; rw [he] at hc; exact absurd hc (by decide)
  refine ⟨?_, ?_, ?_, ?_, ?_, ?_⟩
  · intro email otp post he ho
    unfold verify_otp
    rw [if_neg (hne email he), if_pos ho]
  · intro email otp r kvs a1 r1 he ho h1 h2 hb hacc href
    have hma := jlookup_any hacc
    have hmr := jlookup_any href
    unfold verify_otp
    rw [if_neg (hne email he),
      if_neg (by simp [ho])]
    dsimp only
    rw [if_neg (by omega : ¬ 400 ≤ r.status), hb]
    dsimp only
    simp only [jsonContainsStr]
    rw [hma, hmr]
    try dsimp only
    rw [if_neg (by decide)]
    try dsimp only
    rw [hacc, href]
  · intro email otp r he ho h401
    unfold verify_otp
    rw [if_neg (hne email he),
      if_neg (by simp [ho])]
    dsimp only
    rw [if_pos (by omega : 400 ≤ r.status), if_pos h401]
  · intro email otp he ho
    unfold verify_otp
    rw [if_neg (hne email he),
      if_neg (by simp [ho])]
  · intro h
    injection h with h2
    exact absurd h2 (by decide)
  · intro email otp r kvs he ho h1 h2 hb hmiss
    unfold verify_otp
    rw [if_neg (hne email he),
      if_neg (by simp [ho])]
    dsimp only
    rw [if_neg (by omega : ¬ 400 ≤ r.status), hb]
    dsimp only
    simp only [jsonContainsStr]
    rcases hmiss with hm | hm <;> rw [hm] <;> try dsimp only
    all_goals rw [if_pos (by simp)]

/-- Witness for C2 at concrete inputs: the end-to-end success case, the
401 case, the malformed-OTP case and the missing-token case. -/
theorem C2_verify_otp_witness :
    verify_otp ("user@example.com".data) ("ABCD1234".data)
      (.resp ⟨200, some (Json.obj
        [("accessToken", Json.str "a"), ("refreshToken", Json.str "b")])⟩) =
      .ok ⟨Json.str "a", Json.str "b"⟩ ∧
    verify_otp ("user@example.com".data) ("ABCD1234".data) (.resp ⟨401, none⟩) =
      .error (.authenticationError "Invalid OTP or expired") ∧
    verify_otp ("user@example.com".data) ("ABC".data) .connError =
      .error (.validationError
        "Invalid OTP. Must be 8 uppercase alphanumeric characters.") ∧
    verify_otp ("user@example.com".data) ("ABCD1234".data)
      (.resp ⟨200, some (Json.obj [("accessToken", Json.str "a")])⟩) =
      .error (.authenticationError "Invalid response: missing tokens") :=
  ⟨C2_verify_otp.2.1 _ _ ⟨200, _⟩ _ (Json.str "a") (Json.str "b")
      (by decide) (by decide) (by decide) (by decide) rfl rfl rfl,
   C2_verify_otp.2.2.1 _ _ ⟨401, none⟩ (by decide) (by decide) rfl,
   C2_verify_otp.1 _ _ _ (by decide) (by decide),
   C2_verify_otp.2.2.2.2.2 _ _ ⟨200, _⟩ [("accessToken", Json.str "a")]
      (by decide) (by decide) (by decide) (by decide) rfl
      (Or.inr (by decide))⟩

/-- Claim C6: OS `darwin` with architecture `arm64` resolves to exactly
`base_url ++ "/releases/syftbox_client_darwin_arm64.tar.gz"`; an OS other
than darwin/linux, or an architecture outside
x86_64/amd64/arm64/aarch64, raises `PlatformError` and no URL is
produced. -/
theorem C6_platform_resolution :
    (∀ base : String, get_binary_url base "darwin" "arm64" =
      .ok (base ++ "/releases/syftbox_client_darwin_arm64.tar.gz")) ∧
    (∀ base system machine : String,
      pyLower system ≠ "darwin" → pyLower system ≠ "linux" →
      get_platform_info system machine =
        .error (.unsupportedOS (pyLower system)) ∧
      get_binary_url base system machine =
        .error (.unsupportedOS (pyLower system))) ∧
    (∀ base system machine : String,
      (pyLower system = "darwin" ∨ pyLower system = "linux") →
      pyLower machine ≠ "x86_64" → pyLower machine ≠ "amd64" →
      pyLower machine ≠ "arm64" → pyLower machine ≠ "aarch64" →
      get_platform_info system machine =
        .error (.unsupportedArch (pyLower machine)) ∧
      get_binary_url base system machine =
        .error (.unsupportedArch (pyLower machine))) := by
  refine ⟨?_, ?_, ?_⟩
  · intro base
    unfold get_binary_url
    rw [show get_platform_info "darwin" "arm64" =
      Except.ok ("darwin", "arm64") from rfl]
    rfl
  · intro base system machine h1 h2
    have hp : get_platform_info system machine =
        .error (.unsupportedOS (pyLower system)) := by
      unfold get_platform_info
      rw [if_neg h1, if_neg h2]
      rfl
    refine ⟨hp, ?_⟩
    unfold get_binary_url
    rw [hp]
    rfl
  · intro base system machine h0 h3 h4 h5 h6
    have ha : ¬ ((pyLower machine = "x86_64" || pyLower machine = "amd64") = true) := by
      simp [h3, h4]
    have hb : ¬ ((pyLower machine = "arm64" || pyLower machine = "aarch64") = true) := by
      simp [h5, h6]
    have hp : get_platform_info system machine =
        .error (.unsupportedArch (pyLower machine)) := by
      unfold get_platform_info
      rcases h0 with h0 | h0 <;> rw [h0]
      · rw [if_pos rfl]
        show (if (pyLower machine = "x86_64" || pyLower machine = "amd64") = true
          then _ else _) = _
        rw [if_neg ha, if_neg hb]
        rfl
      · rw [if_neg (by decide), if_pos rfl]
        show (if (pyLower machine = "x86_64" || pyLower machine = "amd64") = true
          then _ else _) = _
        rw [if_neg ha, if_neg hb]
        rfl
    refine ⟨hp, ?_⟩
    unfold get_binary_url
    rw [hp]
    rfl

/-- Witness for C6 at concrete platform strings. -/
theorem C6_platform_resolution_witness :
    get_binary_url "https://syftbox.net" "windows" "arm64" =
      .error (.unsupportedOS "windows") ∧
    get_binary_url "https://syftbox.net" "linux" "riscv64" =
      .error (.unsupportedArch "riscv64") :=
  ⟨(C6_platform_resolution.2.1 "https://syftbox.net" "windows" "arm64"
      (by decide) (by decide)).2,
   (C6_platform_resolution.2.2 "https://syftbox.net" "linux" "riscv64"
      (Or.inr (by decide)) (by decide) (by decide) (by decide) (by decide)).2⟩

/-- Claim C7: whenever `is_running` reports a matching process, `start`
returns successfully and immediately with the existing handle's PID, does
not spawn anything, does not touch the handle, and does not raise even
when the binary is absent. -/
theorem C7_start_idempotent :
    ∀ (st : PMState) (w : ProcWorld) (background : Bool),
      is_running w = true →
      start st w background =
        .ok ⟨st, st.process.map (fun p => p.pid), false⟩ := by
  intro st w background h
  unfold start
  rw [if_pos h]

/-- Witness for C7: a held handle, `pgrep` reporting a live daemon, and
a missing binary. -/
theorem C7_start_idempotent_witness :
    start ⟨some ⟨42, false, false, some 0⟩⟩
        ⟨some (0, "123\n"), none, none, false⟩ true =
      .ok ⟨⟨some ⟨42, false, false, some 0⟩⟩, some 42, false⟩ :=
  C7_start_idempotent ⟨some ⟨42, false, false, some 0⟩⟩
    ⟨some (0, "123\n"), none, none, false⟩ true (by decide)

/-- Claim C8: with no live child handle (none at all, or an already
exited one) `stop` is a no-op returning `False` without raising; with a
live handle (and the termination signal deliverable) it terminates,
sleeps at most 10 × 0.5 s = 5 s, escalates to `kill` exactly when the
child has still not exited after the bounded polling, and returns
`True`, leaving the handle in place. -/
theorem C8_stop :
    (stop ⟨none⟩ = ⟨false, false, false, 0, ⟨none⟩⟩) ∧
    (∀ c : Child, c.alreadyExited = true →
      stop ⟨some c⟩ = ⟨false, false, false, 0, ⟨some c⟩⟩) ∧
    (∀ c : Child, c.alreadyExited = false → c.termRaises = false →
      stop ⟨some c⟩ = ⟨true, true, !pollExited c 10,
        (match c.exitPoll with | some e => min e 10 | none => 10),
        ⟨some c⟩⟩ ∧
      (stop ⟨some c⟩).sleeps ≤ 10 ∧
      (stop ⟨some c⟩).sleeps * 500 ≤ 5000 ∧
      ((stop ⟨some c⟩).killed = true ↔ pollExited c 10 = false)) := by
  refine ⟨rfl, ?_, ?_⟩
  · intro c h
    unfold stop
    dsimp only
    rw [if_pos h]
  · intro c h1 h2
    have he : stop ⟨some c⟩ = ⟨true, true, !pollExited c 10,
        (match c.exitPoll with | some e => min e 10 | none => 10),
        ⟨some c⟩⟩ := by
      unfold stop
      dsimp only
      rw [if_neg (by rw [h1]; exact Bool.false_ne_true),
        if_neg (by rw [h2]; exact Bool.false_ne_true)]
    refine ⟨he, ?_, ?_, ?_⟩
    · rw [he]
      cases c.exitPoll <;> simp [Nat.min_le_right]
    · rw [he]
      cases hp : c.exitPoll with
      | none => simp
      | some e =>
        simp only
        have : min e 10 ≤ 10 := Nat.min_le_right e 10
        omega
    · rw [he]
      simp

/-- Witness for C8: an already-exited handle, and a live handle that
exits after three polls. -/
theorem C8_stop_witness :
    stop ⟨some ⟨7, true, false, none⟩⟩ =
      ⟨false, false, false, 0, ⟨some ⟨7, true, false, none⟩⟩⟩ ∧
    stop ⟨some ⟨8, false, false, some 3⟩⟩ =
      ⟨true, true, false, 3, ⟨some ⟨8, false, false, some 3⟩⟩⟩ :=
  ⟨C8_stop.2.1 ⟨7, true, false, none⟩ rfl,
   (C8_stop.2.2 ⟨8, false, false, some 3⟩ rfl rfl).1⟩

/-- Claim C9: `kill_all_daemons` returns exactly the number of found
daemons whose per-pid kill succeeded (so never more than the number
found), and `kill_daemon` silently maps a non-numeric pid, a vanished
process or a permission error to `False` instead of raising (it is a
total function by construction). -/
theorem C9_kill_all_daemons :
    (∀ (killWorld : Int → Bool → KillOutcome) (psOut : Option (List Char))
        (force : Bool),
      kill_all_daemons killWorld psOut force =
        ((find_daemons psOut).filter
          (fun d => kill_daemon killWorld d.pid force)).length ∧
      kill_all_daemons killWorld psOut force ≤
        (find_daemons psOut).length) ∧
    (∀ (killWorld : Int → Bool → KillOutcome) (pid : List Char) (force : Bool),
      pyParseInt pid = none → kill_daemon killWorld pid force = false) ∧
    (∀ (killWorld : Int → Bool → KillOutcome) (pid : List Char)
        (force : Bool) (n : Int),
      pyParseInt pid = some n → killWorld n force ≠ KillOutcome.ok →
      kill_daemon killWorld pid force = false) ∧
    (∀ (killWorld : Int → Bool → KillOutcome) (pid : List Char)
        (force : Bool) (n : Int),
      pyParseInt pid = some n → killWorld n force = KillOutcome.ok →
      kill_daemon killWorld pid force = true) := by
  refine ⟨?_, ?_, ?_, ?_⟩
  · intro killWorld psOut force
    have he : kill_all_daemons killWorld psOut force =
        ((find_daemons psOut).filter
          (fun d => kill_daemon killWorld d.pid force)).length := by
      unfold kill_all_daemons
      rw [foldl_count_eq_filter_length]
      omega
    exact ⟨he, by rw [he]; exact List.length_filter_le _ _⟩
  · intro killWorld pid force h
    unfold kill_daemon
    rw [h]
  · intro killWorld pid force n h hko
    unfold kill_daemon
    rw [h]
    dsimp only
    cases hw : killWorld n force with
    | ok => exact absurd hw hko
    | noSuchProcess => rfl
    | permissionDenied => rfl
  · intro killWorld pid force n h hko
    unfold kill_daemon
    rw [h]
    dsimp only
    rw [hko]

/-- Witness for C9: a non-numeric pid is skipped, a numeric pid is
killed when the signal succeeds and skipped when the process has
vanished. -/
theorem C9_kill_all_daemons_witness :
    kill_daemon (fun _ _ => KillOutcome.ok) ("abc".data) false = false ∧
    kill_daemon (fun _ _ => KillOutcome.ok) ("123".data) false = true ∧
    kill_daemon (fun _ _ => KillOutcome.noSuchProcess) ("123".data) true = false :=
  ⟨C9_kill_all_daemons.2.1 _ ("abc".data) false (by decide),
   C9_kill_all_daemons.2.2.2 _ ("123".data) false 123 (by decide) rfl,
   C9_kill_all_daemons.2.2.1 _ ("123".data) true 123 (by decide) (by decide)⟩

/-! ### The parser on plain `local@domain.tld` strings (for claim C5)

A character is `plain` when it is neither Python whitespace nor one of
the address parser's atom-ending characters (the RFC 2822 specials
`()<>@,:;."[]`, space, TAB, CR, LF).  On a string
`local@domain.tld` whose three parts are non-empty and plain,
`parseaddr` reproduces the string exactly, which is the interesting half
of `validate_email`. -/

/-- Plain: not whitespace and not an atom-ending character. -/
def isPlainc (c : Char) : Bool := !isPySpace c && !isAtomEnd c

theorem plain_not_special {c : Char} (h : isPlainc c = true) :
    isPySpace c = false ∧ isAtomEnd c = false ∧ isSpecialc c = false ∧
    isLWSc c = false ∧ isCRc c = false ∧ isFWSc c = false ∧
    isPhraseEnd c = false := by
  have h1 : isPySpace c = false ∧ isAtomEnd c = false := by
    unfold isPlainc at h
    constructor
    · cases hx : isPySpace c
      · rfl
      · rw [hx] at h; simp at h
    · cases hx : isAtomEnd c
      · rfl
      · rw [hx] at h; simp at h
  have h2 : isSpecialc c = false ∧ isLWSc c = false ∧ isCRc c = false := by
    have := h1.2
    unfold isAtomEnd at this
    refine ⟨?_, ?_, ?_⟩ <;> cases hx : isSpecialc c <;>
      cases hy : isLWSc c <;> cases hz : isCRc c <;>
      simp_all
  refine ⟨h1.1, h1.2, h2.1, h2.2.1, h2.2.2, ?_, ?_⟩
  · unfold isFWSc
    rw [h2.2.1, h2.2.2]
    rfl
  · unfold isPhraseEnd
    rw [h1.2]
    rfl

theorem plain_ne {c d : Char} (h : isPlainc c = true)
    (hd : isSpecialc d = true ∨ isLWSc d = true ∨ isCRc d = true) :
    c ≠ d := by
  intro he
  subst he
  rcases hd with hd | hd | hd
  · rw [(plain_not_special h).2.2.1] at hd; exact absurd hd (by decide)
  · rw [(plain_not_special h).2.2.2.1] at hd; exact absurd hd (by decide)
  · rw [(plain_not_special h).2.2.2.2.1] at hd; exact absurd hd (by decide)

theorem getElem?_eq_head?_drop {α : Type} (l : List α) (n : Nat) :
    l[n]? = (l.drop n).head? := by
  induction n generalizing l with
  | zero => simp [List.head?_eq_getElem?]
  | succ n ih =>
    cases l with
    | nil => rfl
    | cons a t => simp only [List.drop_succ_cons, List.getElem?_cons_succ, ih t]

theorem takeWhile_run {p : Char → Bool} {u v : List Char}
    (hu : ∀ c ∈ u, p c = true) (hv : ∀ c, v.head? = some c → p c = false) :
    (u ++ v).takeWhile p = u := by
  induction u with
  | nil =>
    cases v with
    | nil => rfl
    | cons a w => simp [List.takeWhile_cons, hv a rfl]
  | cons a u ih =>
    simp [List.takeWhile_cons, hu a (by simp),
      ih (fun c hc => hu c (by simp [hc]))]

/-- `getatom` consumes exactly a maximal run that avoids `ends`. -/
theorem getatom_run {ends : Char → Bool} {st : PAState} {u v : List Char}
    (hd : st.field.drop st.pos = u ++ v)
    (hu : ∀ c ∈ u, ends c = false)
    (hv : ∀ c, v.head? = some c → ends c = true) :
    getatom ends st = (u, { st with pos := st.pos + u.length }) := by
  unfold getatom
  rw [hd, takeWhile_run (p := fun c => !ends c)
    (fun c hc => by simp [hu c hc])
    (fun c hc => by simp [hv c hc])]

theorem pastate_eta (st : PAState) : st = ⟨st.field, st.pos, st.commentlist⟩ := rfl

/-- `gotonext` does not move on end-of-field or on a character that is
not whitespace and not `'('`. -/
theorem gotonextLoop_stop {k : Nat} {acc : List Char} {st : PAState}
    (hc : ∀ c, st.field[st.pos]? = some c →
      isLWSc c = false ∧ c ≠ '\n' ∧ c ≠ '\r' ∧ c ≠ '(') :
    gotonextLoop (k + 1) acc st = (acc, st) := by
  show (match st.field[st.pos]? with
    | none => (acc, st)
    | some c =>
      if isLWSc c || c = '\n' || c = '\r' then
        gotonextLoop k (if c = '\n' || c = '\r' then acc else acc ++ [c])
          { st with pos := st.pos + 1 }
      else if c = '(' then
        let r := getcomment k st
        gotonextLoop k acc
          { r.2 with commentlist := r.2.commentlist ++ [r.1] }
      else (acc, st)) = (acc, st)
  cases h : st.field[st.pos]? with
  | none => rfl
  | some c =>
    obtain ⟨h1, h2, h3, h4⟩ := hc c h
    dsimp only
    rw [if_neg (by simp [h1, h2, h3]), if_neg (by simp [h4])]

theorem gotonext_stop {k : Nat} {st : PAState}
    (hc : ∀ c, st.field[st.pos]? = some c →
      isLWSc c = false ∧ c ≠ '\n' ∧ c ≠ '\r' ∧ c ≠ '(') :
    gotonext (k + 1) st = ([], st) :=
  gotonextLoop_stop hc

/-- `gotonext` does not move when standing on a plain character. -/
theorem gotonext_stop_plain {k : Nat} {st : PAState} {c : Char}
    (h : st.field[st.pos]? = some c) (hp : isPlainc c = true) :
    gotonext (k + 1) st = ([], st) := by
  apply gotonext_stop
  intro d hd
  rw [h] at hd
  injection hd with hd
  subst hd
  obtain ⟨_, _, _, hl, hcr, _, _⟩ := plain_not_special hp
  refine ⟨hl, ?_, ?_, ?_⟩
  · exact plain_ne hp (Or.inr (Or.inr (by decide)))
  · exact plain_ne hp (Or.inr (Or.inr (by decide)))
  · exact plain_ne hp (Or.inl (by decide))

theorem mem_of_head?_some {α : Type} {l : List α} {c : α}
    (h : l.head? = some c) : c ∈ l := by
  cases l with
  | nil => simp at h
  | cons a t =>
    have : a = c := by simpa using h
    subst this
    simp

/-- A string of plain characters is fixed by `str.strip()`. -/
theorem pyStrip_plain {l : List Char} (hl : ∀ c ∈ l, isPlainc c = true) :
    pyStrip l = l := by
  apply pyStrip_eq_self
  · intro c hc
    exact (plain_not_special (hl c (mem_of_head?_some hc))).1
  · intro c hc
    exact (plain_not_special (hl c (List.mem_of_getLast?_eq_some hc))).1

/-- `getphraselist` on `local@...` with plain `local`: one atom, stop at
the `'@'`. -/
theorem phraselist_run {k : Nat} {acc : List (List Char)} {st : PAState}
    {l rest : List Char}
    (hd : st.field.drop st.pos = l ++ '@' :: rest)
    (hl : ∀ c ∈ l, isPlainc c = true) (hne : l ≠ []) :
    getphraselistLoop (k + 1 + 1) acc st =
      (acc ++ [l], { st with pos := st.pos + l.length }) := by
  obtain ⟨c0, l', rfl⟩ : ∃ c0 l', l = c0 :: l' := by
    cases l with
    | nil => exact absurd rfl hne
    | cons a b => exact ⟨a, b, rfl⟩
  have hc0p : isPlainc c0 = true := hl c0 (by simp)
  have hP := plain_not_special hc0p
  have hhead : st.field[st.pos]? = some c0 := by
    rw [getElem?_eq_head?_drop, hd]; rfl
  have hatom : getatom isPhraseEnd st =
      (c0 :: l', { st with pos := st.pos + (c0 :: l').length }) :=
    getatom_run hd
      (fun c hc => (plain_not_special (hl c hc)).2.2.2.2.2.2)
      (fun c hc => by
        injection hc with hc
        rw [← hc]
        decide)
  have hhead2 : st.field[st.pos + (c0 :: l').length]? = some '@' := by
    rw [getElem?_eq_head?_drop, ← List.drop_drop, hd, List.drop_left]
    rfl
  simp only [getphraselistLoop]
  rw [hhead]
  dsimp only
  rw [if_neg (by simp [hP.2.2.2.2.2.1]),
    if_neg (by simp [plain_ne (d := '"') hc0p (Or.inl (by decide))]),
    if_neg (by simp [plain_ne (d := '(') hc0p (Or.inl (by decide))]),
    if_neg (by simp [hP.2.2.2.2.2.2]), hatom]
  dsimp only
  rw [hhead2]
  dsimp only
  rw [if_neg (by decide), if_neg (by decide), if_neg (by decide),
    if_pos (by decide)]

/-- The `getaddrspec` piece loop on `local@...` with plain `local`: one
atom, stop at the `'@'` (no blank piece to pop). -/
theorem addrspecLoop_run {k : Nat} {acc : List (List Char)} {st : PAState}
    {l rest : List Char}
    (hd : st.field.drop st.pos = l ++ '@' :: rest)
    (hl : ∀ c ∈ l, isPlainc c = true) (hne : l ≠ []) :
    getaddrspecLoop (k + 1 + 1) acc st =
      (acc ++ [l], { st with pos := st.pos + l.length }) := by
  obtain ⟨c0, l', rfl⟩ : ∃ c0 l', l = c0 :: l' := by
    cases l with
    | nil => exact absurd rfl hne
    | cons a b => exact ⟨a, b, rfl⟩
  have hc0p : isPlainc c0 = true := hl c0 (by simp)
  have hP := plain_not_special hc0p
  have hhead : st.field[st.pos]? = some c0 := by
    rw [getElem?_eq_head?_drop, hd]; rfl
  have hatom : getatom isAtomEnd st =
      (c0 :: l', { st with pos := st.pos + (c0 :: l').length }) :=
    getatom_run hd
      (fun c hc => (plain_not_special (hl c hc)).2.1)
      (fun c hc => by
        injection hc with hc
        rw [← hc]
        decide)
  have hhead2 : st.field[st.pos + (c0 :: l').length]? = some '@' := by
    rw [getElem?_eq_head?_drop, ← List.drop_drop, hd, List.drop_left]
    rfl
  have hgn : gotonext (k + 1) { st with pos := st.pos + (c0 :: l').length } =
      ([], { st with pos := st.pos + (c0 :: l').length }) := by
    apply gotonext_stop
    intro d hdd
    rw [hhead2] at hdd
    injection hdd with hdd
    rw [← hdd]
    exact ⟨by decide, by decide, by decide, by decide⟩
  have hpop : popBlankLast (acc ++ [c0 :: l']) = acc ++ [c0 :: l'] := by
    unfold popBlankLast
    rw [List.getLast?_concat]
    dsimp only
    rw [if_neg]
    rw [pyStrip_plain hl]
    simp
  simp only [getaddrspecLoop]
  rw [hhead]
  dsimp only
  rw [if_neg (by simp [plain_ne (d := '.') hc0p (Or.inl (by decide))]),
    if_neg (by simp [plain_ne (d := '"') hc0p (Or.inl (by decide))]),
    if_neg (by simp [hP.2.1]), hatom]
  dsimp only
  rw [hgn]
  dsimp only
  rw [if_neg (by simp), hhead2]
  dsimp only
  rw [if_neg (by decide), if_neg (by decide), if_pos (by decide), hpop]

theorem getdomainLoop_succ (fuel : Nat) (acc : List Char) (st : PAState) :
    getdomainLoop (fuel + 1) acc st =
      (match st.field[st.pos]? with
       | none => (acc, st)
       | some c =>
         if isLWSc c then getdomainLoop fuel acc { st with pos := st.pos + 1 }
         else if c = '(' then
           let r := getcomment fuel st
           getdomainLoop fuel acc
             { r.2 with commentlist := r.2.commentlist ++ [r.1] }
         else if c = '[' then
           let r := getdomainliteral fuel st
           getdomainLoop fuel (acc ++ r.1) r.2
         else if c = '.' then
           getdomainLoop fuel (acc ++ ['.']) { st with pos := st.pos + 1 }
         else if c = '@' then ([], st)
         else if isAtomEnd c then (acc, st)
         else
           let a := getatom isAtomEnd st
           getdomainLoop fuel (acc ++ a.1) a.2) := rfl

/-- `getdomain` on `domain.tld` (plain, reaching the end of the field):
an atom, the dot, an atom, end. -/
theorem domainLoop_run {k : Nat} {acc : List Char} {st : PAState}
    {m t : List Char}
    (hd : st.field.drop st.pos = m ++ '.' :: t)
    (hm : ∀ c ∈ m, isPlainc c = true) (hmne : m ≠ [])
    (ht : ∀ c ∈ t, isPlainc c = true) (htne : t ≠ []) :
    getdomainLoop (k + 1 + 1 + 1 + 1) acc st =
      (acc ++ (m ++ '.' :: t),
        { st with pos := st.pos + m.length + 1 + t.length }) := by
  obtain ⟨c0, m', rfl⟩ : ∃ c0 m', m = c0 :: m' := by
    cases m with
    | nil => exact absurd rfl hmne
    | cons a b => exact ⟨a, b, rfl⟩
  obtain ⟨d0, t', rfl⟩ : ∃ d0 t', t = d0 :: t' := by
    cases t with
    | nil => exact absurd rfl htne
    | cons a b => exact ⟨a, b, rfl⟩
  have hc0p : isPlainc c0 = true := hm c0 (by simp)
  have hd0p : isPlainc d0 = true := ht d0 (by simp)
  have hPc := plain_not_special hc0p
  have hPd := plain_not_special hd0p
  have hhead : st.field[st.pos]? = some c0 := by
    rw [getElem?_eq_head?_drop, hd]; rfl
  have hatom : getatom isAtomEnd st =
      (c0 :: m', { st with pos := st.pos + (c0 :: m').length }) :=
    getatom_run hd
      (fun c hc => (plain_not_special (hm c hc)).2.1)
      (fun c hc => by
        injection hc with hc
        rw [← hc]
        decide)
  have hdrop2 : st.field.drop (st.pos + (c0 :: m').length) =
      '.' :: (d0 :: t') := by
    rw [← List.drop_drop, hd, List.drop_left]
  have hhead2 : st.field[st.pos + (c0 :: m').length]? = some '.' := by
    rw [getElem?_eq_head?_drop, hdrop2]; rfl
  have hdrop3 : st.field.drop (st.pos + (c0 :: m').length + 1) =
      (d0 :: t') ++ [] := by
    rw [← List.drop_drop, hdrop2]
    simp
  have hhead3 : st.field[st.pos + (c0 :: m').length + 1]? = some d0 := by
    rw [getElem?_eq_head?_drop, hdrop3]; rfl
  have hatom3 : getatom isAtomEnd
      { st with pos := st.pos + (c0 :: m').length + 1 } =
      (d0 :: t', { st with pos :=
        st.pos + (c0 :: m').length + 1 + (d0 :: t').length }) := by
    have := @getatom_run isAtomEnd
      { st with pos := st.pos + (c0 :: m').length + 1 } (d0 :: t') [] hdrop3
      (fun c hc => (plain_not_special (ht c hc)).2.1)
      (fun c hc => by simp at hc)
    exact this
  have hdrop4 : st.field.drop
      (st.pos + (c0 :: m').length + 1 + (d0 :: t').length) = [] := by
    rw [← List.drop_drop, hdrop3]
    simp
  have hhead4 : st.field[st.pos + (c0 :: m').length + 1 + (d0 :: t').length]? =
      none := by
    rw [getElem?_eq_head?_drop, hdrop4]; rfl
  rw [getdomainLoop_succ, hhead]
  dsimp only
  rw [if_neg (by simp [hPc.2.2.2.1]),
    if_neg (by simp [plain_ne (d := '(') hc0p (Or.inl (by decide))]),
    if_neg (by simp [plain_ne (d := '[') hc0p (Or.inl (by decide))]),
    if_neg (by simp [plain_ne (d := '.') hc0p (Or.inl (by decide))]),
    if_neg (by simp [plain_ne (d := '@') hc0p (Or.inl (by decide))]),
    if_neg (by simp [hPc.2.1]), hatom]
  dsimp only
  rw [getdomainLoop_succ, hhead2]
  dsimp only
  rw [if_neg (by decide), if_neg (by decide), if_neg (by decide),
    if_pos (by decide)]
  rw [getdomainLoop_succ, hhead3]
  dsimp only
  rw [if_neg (by simp [hPd.2.2.2.1]),
    if_neg (by simp [plain_ne (d := '(') hd0p (Or.inl (by decide))]),
    if_neg (by simp [plain_ne (d := '[') hd0p (Or.inl (by decide))]),
    if_neg (by simp [plain_ne (d := '.') hd0p (Or.inl (by decide))]),
    if_neg (by simp [plain_ne (d := '@') hd0p (Or.inl (by decide))]),
    if_neg (by simp [hPd.2.1]), hatom3]
  dsimp only
  rw [getdomainLoop_succ, hhead4]
  dsimp only
  simp [List.append_assoc]

/-- `getaddrspec` on a whole plain `local@domain.tld` remainder
reproduces it exactly and consumes it. -/
theorem addrspecFn_run {k : Nat} {st : PAState} {l m t : List Char}
    (hd : st.field.drop st.pos = l ++ '@' :: (m ++ '.' :: t))
    (hl : ∀ c ∈ l, isPlainc c = true) (hlne : l ≠ [])
    (hm : ∀ c ∈ m, isPlainc c = true) (hmne : m ≠ [])
    (ht : ∀ c ∈ t, isPlainc c = true) (htne : t ≠ []) :
    getaddrspecFn (k + 4) st =
      (l ++ '@' :: (m ++ '.' :: t),
        { st with pos := st.pos + l.length + 1 + m.length + 1 + t.length }) := by
  obtain ⟨c0, l', hl0⟩ : ∃ c0 l', l = c0 :: l' := by
    cases l with
    | nil => exact absurd rfl hlne
    | cons a b => exact ⟨a, b, rfl⟩
  obtain ⟨m0, m', hm0⟩ : ∃ m0 m', m = m0 :: m' := by
    cases m with
    | nil => exact absurd rfl hmne
    | cons a b => exact ⟨a, b, rfl⟩
  have hhead : st.field[st.pos]? = some c0 := by
    rw [getElem?_eq_head?_drop, hd, hl0]; rfl
  have hg0 : gotonext (k + 4) st = ([], st) :=
    gotonext_stop_plain hhead (hl c0 (by rw [hl0]; simp))
  have hr : getaddrspecLoop (k + 4) [] st =
      ([l], { st with pos := st.pos + l.length }) :=
    addrspecLoop_run hd hl hlne
  have hdropAt : st.field.drop (st.pos + l.length) = '@' :: (m ++ '.' :: t) := by
    rw [← List.drop_drop, hd, List.drop_left]
  have hheadAt : st.field[st.pos + l.length]? = some '@' := by
    rw [getElem?_eq_head?_drop, hdropAt]; rfl
  have hdrop3 : st.field.drop (st.pos + l.length + 1) = m ++ '.' :: t := by
    rw [← List.drop_drop, hdropAt]
    simp
  have hhead3 : st.field[st.pos + l.length + 1]? = some m0 := by
    rw [getElem?_eq_head?_drop, hdrop3, hm0]; rfl
  have hg1 : gotonext (k + 4)
      { st with pos := st.pos + l.length + 1 } =
      ([], { st with pos := st.pos + l.length + 1 }) :=
    gotonext_stop_plain hhead3 (hm m0 (by rw [hm0]; simp))
  have hdom : getdomainFn (k + 4) { st with pos := st.pos + l.length + 1 } =
      (m ++ '.' :: t,
        { st with pos := st.pos + l.length + 1 + m.length + 1 + t.length }) :=
    domainLoop_run hdrop3 hm hmne ht htne
  unfold getaddrspecFn
  rw [hg0]
  dsimp only
  rw [hr]
  dsimp only
  rw [hheadAt]
  dsimp only
  rw [if_pos rfl]
  rw [hg1]
  dsimp only
  rw [hdom]
  dsimp only
  rw [if_neg (by simp [hm0])]
  simp

/-- `getaddress` on a whole plain `local@domain.tld` field: the phrase
scan stops at the `'@'`, the addr-spec branch re-parses from the start
and reproduces the string, with an empty realname. -/
theorem getaddressFn_run {k : Nat} {st : PAState} {l m t : List Char}
    (hd : st.field.drop st.pos = l ++ '@' :: (m ++ '.' :: t))
    (hl : ∀ c ∈ l, isPlainc c = true) (hlne : l ≠ [])
    (hm : ∀ c ∈ m, isPlainc c = true) (hmne : m ≠ [])
    (ht : ∀ c ∈ t, isPlainc c = true) (htne : t ≠ []) :
    getaddressFn (k + 5) st =
      ([([], l ++ '@' :: (m ++ '.' :: t))],
        ⟨st.field, st.pos + l.length + 1 + m.length + 1 + t.length, []⟩) := by
  obtain ⟨c0, l', hl0⟩ : ∃ c0 l', l = c0 :: l' := by
    cases l with
    | nil => exact absurd rfl hlne
    | cons a b => exact ⟨a, b, rfl⟩
  have hd0 : (⟨st.field, st.pos, []⟩ : PAState).field.drop
      (⟨st.field, st.pos, []⟩ : PAState).pos = l ++ '@' :: (m ++ '.' :: t) := hd
  have hhead : st.field[st.pos]? = some c0 := by
    rw [getElem?_eq_head?_drop, hd, hl0]; rfl
  have hg0 : gotonext (k + 4) (⟨st.field, st.pos, []⟩ : PAState) =
      ([], ⟨st.field, st.pos, []⟩) :=
    @gotonext_stop_plain (k + 3) ⟨st.field, st.pos, []⟩ c0 hhead
      (hl c0 (by rw [hl0]; simp))
  have hph : getphraselistLoop (k + 4) [] (⟨st.field, st.pos, []⟩ : PAState) =
      ([l], ⟨st.field, st.pos + l.length, []⟩) :=
    phraselist_run hd0 hl hlne
  have hdropAt : st.field.drop (st.pos + l.length) = '@' :: (m ++ '.' :: t) := by
    rw [← List.drop_drop, hd, List.drop_left]
  have hheadAt : st.field[st.pos + l.length]? = some '@' := by
    rw [getElem?_eq_head?_drop, hdropAt]; rfl
  have hg1 : gotonext (k + 4) (⟨st.field, st.pos + l.length, []⟩ : PAState) =
      ([], ⟨st.field, st.pos + l.length, []⟩) := by
    apply gotonext_stop
    intro d hdd
    rw [hheadAt] at hdd
    injection hdd with hdd
    rw [← hdd]
    exact ⟨by decide, by decide, by decide, by decide⟩
  have ha : getaddrspecFn (k + 4) (⟨st.field, st.pos, []⟩ : PAState) =
      (l ++ '@' :: (m ++ '.' :: t),
        ⟨st.field, st.pos + l.length + 1 + m.length + 1 + t.length, []⟩) :=
    addrspecFn_run hd0 hl hlne hm hmne ht htne
  have hdropEnd : st.field.drop
      (st.pos + l.length + 1 + m.length + 1 + t.length) = [] := by
    have h3 : st.field.drop (st.pos + l.length + 1) = m ++ '.' :: t := by
      rw [← List.drop_drop, hdropAt]
      simp
    have h4 : st.field.drop (st.pos + l.length + 1 + m.length) = '.' :: t := by
      rw [← List.drop_drop, h3, List.drop_left]
    have h5 : st.field.drop (st.pos + l.length + 1 + m.length + 1) = t := by
      rw [← List.drop_drop, h4]
      simp
    rw [← List.drop_drop, h5]
    simp
  have hheadEnd : st.field[st.pos + l.length + 1 + m.length + 1 + t.length]? =
      none := by
    rw [getElem?_eq_head?_drop, hdropEnd]; rfl
  have hg2 : gotonext (k + 4)
      (⟨st.field, st.pos + l.length + 1 + m.length + 1 + t.length, []⟩ : PAState) =
      ([], ⟨st.field, st.pos + l.length + 1 + m.length + 1 + t.length, []⟩) := by
    apply gotonext_stop
    intro d hdd
    rw [hheadEnd] at hdd
    cases hdd
  rw [getaddressFn]
  dsimp only
  rw [hg0]
  dsimp only
  rw [hph]
  dsimp only
  rw [hg1]
  dsimp only
  rw [hheadAt]
  dsimp only
  rw [if_pos (by decide)]
  rw [ha]
  dsimp only
  rw [hg2]
  dsimp only
  rw [hheadEnd]
  dsimp only
  rfl

/-- One-step unfolding of the address-list loop. -/
theorem getaddrlistLoop_succ (fuel : Nat)
    (acc : List (List Char × List Char)) (st : PAState) :
    getaddrlistLoop (fuel + 1) acc st =
      (if st.field.length ≤ st.pos then (acc, st)
       else
        let a := getaddressFn fuel st
        getaddrlistLoop fuel
          (if a.1 ≠ [] then acc ++ a.1 else acc ++ [([], [])]) a.2) := rfl

/-- `parseaddr` reproduces a plain `local@domain.tld` string exactly,
with an empty realname. -/
theorem parseaddr_grammar {l m t : List Char}
    (hl : ∀ c ∈ l, isPlainc c = true) (hlne : l ≠ [])
    (hm : ∀ c ∈ m, isPlainc c = true) (hmne : m ≠ [])
    (ht : ∀ c ∈ t, isPlainc c = true) (htne : t ≠ []) :
    parseaddr (l ++ '@' :: (m ++ '.' :: t)) =
      ([], l ++ '@' :: (m ++ '.' :: t)) := by
  have hslen : (l ++ '@' :: (m ++ '.' :: t)).length =
      l.length + 1 + m.length + 1 + t.length := by
    simp
    omega
  have hsne : l ++ '@' :: (m ++ '.' :: t) ≠ [] := by
    cases l <;> simp
  obtain ⟨k, hk⟩ : ∃ k,
      ((l ++ '@' :: (m ++ '.' :: t)).length + 2) *
        ((l ++ '@' :: (m ++ '.' :: t)).length + 2) = k + 7 := by
    have h1 : 7 ≤ ((l ++ '@' :: (m ++ '.' :: t)).length + 2) *
        ((l ++ '@' :: (m ++ '.' :: t)).length + 2) := by
      have hll : 1 ≤ l.length := List.length_pos.mpr hlne
      have hml : 1 ≤ m.length := List.length_pos.mpr hmne
      have htl : 1 ≤ t.length := List.length_pos.mpr htne
      calc 7 ≤ (l ++ '@' :: (m ++ '.' :: t)).length + 2 := by
            rw [hslen]; omega
        _ ≤ ((l ++ '@' :: (m ++ '.' :: t)).length + 2) *
            ((l ++ '@' :: (m ++ '.' :: t)).length + 2) :=
            Nat.le_mul_of_pos_left _ (by omega)
    refine ⟨((l ++ '@' :: (m ++ '.' :: t)).length + 2) *
      ((l ++ '@' :: (m ++ '.' :: t)).length + 2) - 7, ?_⟩
    omega
  have haddr : getaddressFn (k + 6)
      (⟨l ++ '@' :: (m ++ '.' :: t), 0, []⟩ : PAState) =
      ([([], l ++ '@' :: (m ++ '.' :: t))],
        ⟨l ++ '@' :: (m ++ '.' :: t),
          0 + l.length + 1 + m.length + 1 + t.length, []⟩) :=
    getaddressFn_run (k := k + 1) rfl hl hlne hm hmne ht htne
  have hlist : getaddrlistLoop (k + 7) []
      (⟨l ++ '@' :: (m ++ '.' :: t), 0, []⟩ : PAState) =
      ([([], l ++ '@' :: (m ++ '.' :: t))],
        ⟨l ++ '@' :: (m ++ '.' :: t),
          0 + l.length + 1 + m.length + 1 + t.length, []⟩) := by
    rw [getaddrlistLoop_succ]
    rw [if_neg (by
      rw [hslen]
      have hll : 1 ≤ l.length := List.length_pos.mpr hlne
      simp only [not_le]
      omega)]
    dsimp only
    rw [haddr]
    dsimp only
    rw [if_pos (by simp)]
    rw [getaddrlistLoop_succ]
    rw [if_pos (by rw [hslen]; dsimp only; omega)]
    rfl
  unfold parseaddr
  rw [if_neg hsne, hk, hlist]

/-- The regex body accepts a plain `local@domain.tld` string. -/
theorem emailRegexCore_grammar {l m t : List Char}
    (hl : ∀ c ∈ l, isPlainc c = true) (hlne : l ≠ [])
    (hm : ∀ c ∈ m, isPlainc c = true) (hmne : m ≠ [])
    (ht : ∀ c ∈ t, isPlainc c = true) (htne : t ≠ []) :
    emailRegexCore (l ++ '@' :: (m ++ '.' :: t)) = true := by
  have hTW : (l ++ '@' :: (m ++ '.' :: t)).takeWhile (fun c => c ≠ '@') = l :=
    takeWhile_run
      (fun c hc => by simp [plain_ne (d := '@') (hl c hc) (Or.inl (by decide))])
      (fun c hc => by
        injection hc with hc
        rw [← hc]
        decide)
  unfold emailRegexCore
  rw [hTW]
  dsimp only
  rw [List.drop_left]
  dsimp only
  have h1 : l ≠ [] := hlne
  have h2 : l.all (fun c => !isPySpace c) = true := by
    rw [List.all_eq_true]
    intro c hc
    simp [(plain_not_special (hl c hc)).1]
  have h3 : (m ++ '.' :: t) ≠ [] := by cases m <;> simp
  have h4 : (m ++ '.' :: t).all notWsAt = true := by
    rw [List.all_eq_true]
    intro c hc
    rw [List.mem_append] at hc
    rcases hc with hc | hc
    · unfold notWsAt
      simp [(plain_not_special (hm c hc)).1,
        plain_ne (d := '@') (hm c hc) (Or.inl (by decide))]
    · rw [List.mem_cons] at hc
      rcases hc with hc | hc
      · rw [hc]; decide
      · unfold notWsAt
        simp [(plain_not_special (ht c hc)).1,
          plain_ne (d := '@') (ht c hc) (Or.inl (by decide))]
  have h5 : (((m ++ '.' :: t).drop 1).dropLast.any (fun c => c = '.')) = true := by
    obtain ⟨d0, t', rfl⟩ : ∃ d0 t', t = d0 :: t' := by
      cases t with
      | nil => exact absurd rfl htne
      | cons a b => exact ⟨a, b, rfl⟩
    rw [List.any_eq_true]
    refine ⟨'.', ?_, by simp⟩
    cases m with
    | nil => exact absurd rfl hmne
    | cons a m' =>
      have : ((a :: m' ++ '.' :: d0 :: t').drop 1) = m' ++ '.' :: d0 :: t' := by
        simp
      rw [this, List.dropLast_append_cons]
      simp
  rw [h2, h4, h5]
  simp [h1, h3]

/-- Direction (a) of the amended C5: `validate_email` accepts every
plain `local@domain.tld` string. -/
theorem validate_email_grammar {l m t : List Char}
    (hl : ∀ c ∈ l, isPlainc c = true) (hlne : l ≠ [])
    (hm : ∀ c ∈ m, isPlainc c = true) (hmne : m ≠ [])
    (ht : ∀ c ∈ t, isPlainc c = true) (htne : t ≠ []) :
    validate_email (l ++ '@' :: (m ++ '.' :: t)) = true := by
  have hsne : l ++ '@' :: (m ++ '.' :: t) ≠ [] := by cases l <;> simp
  have hpa := parseaddr_grammar hl hlne hm hmne ht htne
  unfold validate_email
  rw [if_neg hsne]
  dsimp only
  rw [hpa]
  dsimp only
  rw [if_neg (by simp [hsne])]
  unfold emailRegexMatch reDollarMatch
  rw [emailRegexCore_grammar hl hlne hm hmne ht htne]
  rfl

/-! ### The rejecting directions of `validate_email` (claim C5) -/

theorem validate_email_false_of_regex {s : List Char}
    (h : emailRegexMatch s = false) : validate_email s = false := by
  unfold validate_email
  split
  · rfl
  · dsimp only
    split
    · rfl
    · exact h

theorem emailRegexCore_false_of_noAt {s : List Char} (h : '@' ∉ s) :
    emailRegexCore s = false := by
  have hTW : s.takeWhile (fun c => c ≠ '@') = s := by
    have := takeWhile_run (p := fun c => decide (c ≠ '@')) (u := s) (v := [])
      (fun c hc => by
        simp only [decide_eq_true_eq]
        intro he
        exact h (he ▸ hc))
      (fun c hc => by simp at hc)
    simpa using this
  unfold emailRegexCore
  rw [hTW]
  dsimp only
  rw [List.drop_length]

theorem emailRegexMatch_false_of_noAt {s : List Char} (h : '@' ∉ s) :
    emailRegexMatch s = false := by
  have h2 : '@' ∉ s.dropLast :=
    fun hc => h ((List.dropLast_sublist s).subset hc)
  unfold emailRegexMatch reDollarMatch
  rw [emailRegexCore_false_of_noAt h, emailRegexCore_false_of_noAt h2]
  simp

theorem drop_dropLast_comm {α : Type} (l : List α) (n : Nat) :
    (l.dropLast).drop n = (l.drop n).dropLast := by
  rw [List.dropLast_eq_take, List.dropLast_eq_take, List.drop_take]
  congr 1
  rw [List.length_drop]
  omega

theorem emailRegexCore_false_of_noDot {s : List Char}
    (h : '.' ∉ s.drop ((s.takeWhile (fun c => c ≠ '@')).length + 1)) :
    emailRegexCore s = false := by
  unfold emailRegexCore
  dsimp only
  cases hdrop : s.drop (s.takeWhile (fun c => c ≠ '@')).length with
  | nil => rfl
  | cons c b =>
    dsimp only
    have hb : s.drop ((s.takeWhile (fun c => c ≠ '@')).length + 1) = b := by
      rw [← List.drop_drop, hdrop]
      rfl
    have hany : ((b.drop 1).dropLast.any (fun c => c = '.')) = false := by
      cases ha : ((b.drop 1).dropLast.any (fun c => c = '.')) with
      | false => rfl
      | true =>
        rw [List.any_eq_true] at ha
        obtain ⟨x, hx, hx2⟩ := ha
        have hxd : x = '.' := by simpa using hx2
        subst hxd
        have : '.' ∈ b :=
          (List.drop_sublist ..).subset ((List.dropLast_sublist _).subset hx)
        rw [← hb] at this
        exact absurd this h
    rw [hany]
    simp

theorem emailRegexMatch_false_of_noDot {s : List Char}
    (h : '.' ∉ s.drop ((s.takeWhile (fun c => c ≠ '@')).length + 1)) :
    emailRegexMatch s = false := by
  unfold emailRegexMatch reDollarMatch
  rw [emailRegexCore_false_of_noDot h]
  by_cases hat : '@' ∈ s.dropLast
  · have hsne : s ≠ [] := by
      intro he
      rw [he] at hat
      simp at hat
    have hlt : ((s.dropLast).takeWhile (fun c => c ≠ '@')).length ≠
        s.dropLast.length := by
      intro he
      have hpre := List.takeWhile_prefix (l := s.dropLast)
        (p := fun c => decide (c ≠ '@'))
      have heq := hpre.eq_of_length he
      have := List.mem_takeWhile_imp (p := fun c => decide (c ≠ '@'))
        (l := s.dropLast) (heq ▸ hat)
      simp at this
    have hTWe : s.takeWhile (fun c => c ≠ '@') =
        (s.dropLast).takeWhile (fun c => c ≠ '@') := by
      conv_lhs => rw [← List.dropLast_concat_getLast hsne]
      rw [List.takeWhile_append]
      rw [if_neg hlt]
    have h2 : '.' ∉ (s.dropLast).drop
        (((s.dropLast).takeWhile (fun c => c ≠ '@')).length + 1) := by
      rw [← hTWe, drop_dropLast_comm]
      intro hc
      exact h ((List.dropLast_sublist _).subset hc)
    rw [emailRegexCore_false_of_noDot h2]
    simp
  · rw [emailRegexCore_false_of_noAt hat]
    simp

/-! ### Parser invariants: no output address reproduces a field that
ends in a newline (for the whitespace direction of claim C5) -/

theorem getdelimLoop_succ (endc : Char → Bool) (allowc : Bool) (fuel : Nat)
    (quoted : Bool) (acc : List Char) (st : PAState) :
    getdelimLoop endc allowc (fuel + 1) quoted acc st =
      (match st.field[st.pos]? with
       | none => (acc, st)
       | some c =>
         if quoted then
           getdelimLoop endc allowc fuel false (acc ++ [c])
             { st with pos := st.pos + 1 }
         else if endc c then (acc, { st with pos := st.pos + 1 })
         else if allowc && c = '(' then
           let r := getdelimLoop (fun c => c = ')' || c = '\r') true fuel false
             [] { st with pos := st.pos + 1 }
           getdelimLoop endc allowc fuel false (acc ++ r.1) r.2
         else if c = '\\' then
           getdelimLoop endc allowc fuel true acc { st with pos := st.pos + 1 }
         else
           getdelimLoop endc allowc fuel false (acc ++ [c])
             { st with pos := st.pos + 1 }) := rfl

theorem gotonextLoop_succ (fuel : Nat) (acc : List Char) (st : PAState) :
    gotonextLoop (fuel + 1) acc st =
      (match st.field[st.pos]? with
       | none => (acc, st)
       | some c =>
         if isLWSc c || c = '\n' || c = '\r' then
           gotonextLoop fuel (if c = '\n' || c = '\r' then acc else acc ++ [c])
             { st with pos := st.pos + 1 }
         else if c = '(' then
           let r := getcomment fuel st
           gotonextLoop fuel acc
             { r.2 with commentlist := r.2.commentlist ++ [r.1] }
         else (acc, st)) := rfl

theorem getphraselistLoop_succ (fuel : Nat) (acc : List (List Char))
    (st : PAState) :
    getphraselistLoop (fuel + 1) acc st =
      (match st.field[st.pos]? with
       | none => (acc, st)
       | some c =>
         if isFWSc c then
           getphraselistLoop fuel acc { st with pos := st.pos + 1 }
         else if c = '"' then
           let q := getquote fuel st
           getphraselistLoop fuel (acc ++ [q.1]) q.2
         else if c = '(' then
           let r := getcomment fuel st
           getphraselistLoop fuel acc
             { r.2 with commentlist := r.2.commentlist ++ [r.1] }
         else if isPhraseEnd c then (acc, st)
         else
           let a := getatom isPhraseEnd st
           getphraselistLoop fuel (acc ++ [a.1]) a.2) := rfl

theorem getaddrspecLoop_succ (fuel : Nat) (acc : List (List Char))
    (st : PAState) :
    getaddrspecLoop (fuel + 1) acc st =
      (match st.field[st.pos]? with
       | none => (acc, st)
       | some c =>
         if c = '.' then
           let acc2 := popBlankLast acc ++ [['.']]
           let g := gotonext fuel { st with pos := st.pos + 1 }
           getaddrspecLoop fuel acc2 g.2
         else if c = '"' then
           let q := getquote fuel st
           let acc2 := acc ++ [('"' :: pyQuoteAddr q.1) ++ ['"']]
           let g := gotonext fuel q.2
           getaddrspecLoop fuel (if g.1 ≠ [] then acc2 ++ [g.1] else acc2) g.2
         else if isAtomEnd c then (popBlankLast acc, st)
         else
           let a := getatom isAtomEnd st
           let acc2 := acc ++ [a.1]
           let g := gotonext fuel a.2
           getaddrspecLoop fuel (if g.1 ≠ [] then acc2 ++ [g.1] else acc2)
             g.2) := rfl

theorem getrouteaddrLoop_succ (fuel : Nat) (expectroute : Bool)
    (adlist : List Char) (st : PAState) :
    getrouteaddrLoop (fuel + 1) expectroute adlist st =
      (match st.field[st.pos]? with
       | none => (adlist, st)
       | some c =>
         if expectroute then
           let d := getdomainFn fuel st
           let g := gotonext fuel d.2
           getrouteaddrLoop fuel false adlist g.2
         else if c = '>' then (adlist, { st with pos := st.pos + 1 })
         else if c = '@' then
           let g := gotonext fuel { st with pos := st.pos + 1 }
           getrouteaddrLoop fuel true adlist g.2
         else if c = ':' then
           let g := gotonext fuel { st with pos := st.pos + 1 }
           getrouteaddrLoop fuel false adlist g.2
         else
           let a := getaddrspecFn fuel st
           (a.1, { a.2 with pos := a.2.pos + 1 })) := rfl

theorem getdelimLoop_field : ∀ (fuel : Nat) (endc : Char → Bool)
    (allowc quoted : Bool) (acc : List Char) (st : PAState),
    (getdelimLoop endc allowc fuel quoted acc st).2.field = st.field := by
  intro fuel
  induction fuel with
  | zero => intro endc allowc quoted acc st; rfl
  | succ fuel ih =>
    intro endc allowc quoted acc st
    rw [getdelimLoop_succ]
    cases h : st.field[st.pos]? with
    | none => rfl
    | some c =>
      dsimp only
      split
      · simpa using ih ..
      · split
        · rfl
        · split
          · try dsimp only
            rw [ih ..]
            simpa using ih ..
          · split
            · simpa using ih ..
            · simpa using ih ..

theorem getcomment_field (fuel : Nat) (st : PAState) :
    (getcomment fuel st).2.field = st.field := by
  unfold getcomment getdelimited
  cases h : st.field[st.pos]? with
  | none => rfl
  | some c =>
    dsimp only
    split
    · simpa using getdelimLoop_field ..
    · rfl

theorem getquote_field (fuel : Nat) (st : PAState) :
    (getquote fuel st).2.field = st.field := by
  unfold getquote getdelimited
  cases h : st.field[st.pos]? with
  | none => rfl
  | some c =>
    dsimp only
    split
    · simpa using getdelimLoop_field ..
    · rfl

theorem getdomainliteral_field (fuel : Nat) (st : PAState) :
    (getdomainliteral fuel st).2.field = st.field := by
  unfold getdomainliteral getdelimited
  cases h : st.field[st.pos]? with
  | none => rfl
  | some c =>
    dsimp only
    split
    · simpa using getdelimLoop_field ..
    · rfl

theorem gotonextLoop_field : ∀ (fuel : Nat) (acc : List Char) (st : PAState),
    (gotonextLoop fuel acc st).2.field = st.field := by
  intro fuel
  induction fuel with
  | zero => intro acc st; rfl
  | succ fuel ih =>
    intro acc st
    rw [gotonextLoop_succ]
    cases h : st.field[st.pos]? with
    | none => rfl
    | some c =>
      dsimp only
      split
      · simpa using ih ..
      · split
        · try dsimp only
          rw [ih ..]
          simpa using getcomment_field ..
        · rfl

theorem gotonext_field (fuel : Nat) (st : PAState) :
    (gotonext fuel st).2.field = st.field := gotonextLoop_field ..

theorem getatom_field (ends : Char → Bool) (st : PAState) :
    (getatom ends st).2.field = st.field := rfl

theorem getphraselistLoop_field : ∀ (fuel : Nat) (acc : List (List Char))
    (st : PAState),
    (getphraselistLoop fuel acc st).2.field = st.field := by
  intro fuel
  induction fuel with
  | zero => intro acc st; rfl
  | succ fuel ih =>
    intro acc st
    rw [getphraselistLoop_succ]
    cases h : st.field[st.pos]? with
    | none => rfl
    | some c =>
      dsimp only
      split
      · simpa using ih ..
      · split
        · try dsimp only
          rw [ih ..]
          simpa using getquote_field ..
        · split
          · try dsimp only
            rw [ih ..]
            simpa using getcomment_field ..
          · split
            · rfl
            · simpa using ih ..

theorem getdomainLoop_field : ∀ (fuel : Nat) (acc : List Char) (st : PAState),
    (getdomainLoop fuel acc st).2.field = st.field := by
  intro fuel
  induction fuel with
  | zero => intro acc st; rfl
  | succ fuel ih =>
    intro acc st
    rw [getdomainLoop_succ]
    cases h : st.field[st.pos]? with
    | none => rfl
    | some c =>
      dsimp only
      split
      · simpa using ih ..
      · split
        · try dsimp only
          rw [ih ..]
          simpa using getcomment_field ..
        · split
          · try dsimp only
            rw [ih ..]
            simpa using getdomainliteral_field ..
          · split
            · simpa using ih ..
            · split
              · rfl
              · split
                · rfl
                · simpa using ih ..

theorem getdomainFn_field (fuel : Nat) (st : PAState) :
    (getdomainFn fuel st).2.field = st.field := getdomainLoop_field ..

theorem getaddrspecLoop_field : ∀ (fuel : Nat) (acc : List (List Char))
    (st : PAState),
    (getaddrspecLoop fuel acc st).2.field = st.field := by
  intro fuel
  induction fuel with
  | zero => intro acc st; rfl
  | succ fuel ih =>
    intro acc st
    rw [getaddrspecLoop_succ]
    cases h : st.field[st.pos]? with
    | none => rfl
    | some c =>
      dsimp only
      split
      · try dsimp only
        rw [ih ..]
        simpa using gotonext_field ..
      · split
        · try dsimp only
          rw [ih ..]
          rw [gotonext_field ..]
          simpa using getquote_field ..
        · split
          · rfl
          · try dsimp only
            rw [ih ..]
            rw [gotonext_field ..]
            rfl

theorem getaddrspecFn_field (fuel : Nat) (st : PAState) :
    (getaddrspecFn fuel st).2.field = st.field := by
  unfold getaddrspecFn
  dsimp only
  split
  · split
    · split
      · dsimp only
        rw [getdomainFn_field .., gotonext_field ..]
        dsimp only
        rw [getaddrspecLoop_field ..]
        exact gotonext_field ..
      · dsimp only
        rw [getdomainFn_field .., gotonext_field ..]
        dsimp only
        rw [getaddrspecLoop_field ..]
        exact gotonext_field ..
    · dsimp only
      rw [getaddrspecLoop_field ..]
      exact gotonext_field ..
  · dsimp only
    rw [getaddrspecLoop_field ..]
    exact gotonext_field ..

theorem getrouteaddrLoop_field : ∀ (fuel : Nat) (expectroute : Bool)
    (adlist : List Char) (st : PAState),
    (getrouteaddrLoop fuel expectroute adlist st).2.field = st.field := by
  intro fuel
  induction fuel with
  | zero => intro e a st; rfl
  | succ fuel ih =>
    intro e a st
    rw [getrouteaddrLoop_succ]
    cases h : st.field[st.pos]? with
    | none => rfl
    | some c =>
      dsimp only
      split
      · try dsimp only
        rw [ih ..]
        rw [gotonext_field ..]
        exact getdomainFn_field ..
      · split
        · rfl
        · split
          · try dsimp only
            rw [ih ..]
            simpa using gotonext_field ..
          · split
            · try dsimp only
              rw [ih ..]
              simpa using gotonext_field ..
            · dsimp only
              rw [getaddrspecFn_field ..]

theorem getrouteaddrFn_field (fuel : Nat) (st : PAState) :
    (getrouteaddrFn fuel st).2.field = st.field := by
  unfold getrouteaddrFn
  cases h : st.field[st.pos]? with
  | none => rfl
  | some c =>
    dsimp only
    split
    · try dsimp only
      rw [getrouteaddrLoop_field ..]
      simpa using gotonext_field ..
    · rfl

theorem mem_of_getLast?_some {α : Type} {l : List α} {a : α}
    (h : l.getLast? = some a) : a ∈ l := by
  induction l with
  | nil => simp at h
  | cons x xs ih =>
    cases xs with
    | nil => simp at h; simp [h]
    | cons y ys =>
      rw [List.getLast?_cons_cons] at h
      exact List.mem_cons_of_mem x (ih h)

theorem lt_of_getElem?_some {α : Type} {l : List α} {n : Nat} {a : α}
    (h : l[n]? = some a) : n < l.length := by
  by_contra hn
  push_neg at hn
  rw [List.getElem?_eq_none hn] at h
  exact absurd h (by simp)

theorem head_drop_takeWhile (p : Char → Bool) :
    ∀ (s : List Char) (c : Char),
    (s.drop (s.takeWhile p).length).head? = some c → p c = false := by
  intro s
  induction s with
  | nil => intro c h; simp at h
  | cons x xs ih =>
    intro c h
    by_cases hx : p x
    · rw [List.takeWhile_cons, if_pos hx] at h
      simp only [List.length_cons, List.drop_succ_cons] at h
      exact ih c h
    · rw [List.takeWhile_cons, if_neg hx] at h
      simp only [List.length_nil, List.drop_zero, List.head?_cons,
        Option.some.injEq] at h
      rw [← h]
      exact Bool.eq_false_iff.mpr hx

theorem takeWhile_decomp (p : Char → Bool) (s : List Char) :
    s = s.takeWhile p ++ s.drop (s.takeWhile p).length := by
  have h1 : s.takeWhile p = s.take (s.takeWhile p).length :=
    List.prefix_iff_eq_take.mp ( List.takeWhile_prefix p)
  conv_lhs => rw [← List.take_append_drop (s.takeWhile p).length s]
  rw [← h1]

/-- A string matched by the core email regex contains no Python
whitespace at all: each of the three character classes is `[^\s@]`. -/
theorem emailRegexCore_no_ws {s : List Char} (h : emailRegexCore s = true) :
    ∀ c ∈ s, isPySpace c = false := by
  unfold emailRegexCore at h
  dsimp only at h
  cases hdrop : s.drop ((s.takeWhile (fun c => c ≠ '@')).length) with
  | nil => rw [hdrop] at h; simp at h
  | cons c0 b =>
    rw [hdrop] at h
    dsimp only at h
    rw [Bool.and_eq_true, Bool.and_eq_true, Bool.and_eq_true,
      Bool.and_eq_true] at h
    obtain ⟨⟨⟨⟨ha1, ha2⟩, hb1⟩, hb2⟩, hdot⟩ := h
    rw [List.all_eq_true] at ha2 hb2
    have hsplit := takeWhile_decomp (fun c => decide (c ≠ '@')) s
    have hc0 : c0 = '@' := by
      have hh := head_drop_takeWhile (fun c => decide (c ≠ '@')) s c0
        (by rw [hdrop]; rfl)
      simpa using hh
    intro c hc
    rw [hsplit, hdrop] at hc
    rcases List.mem_append.mp hc with hca | hcb
    · have := ha2 c hca
      simpa using this
    · rcases List.mem_cons.mp hcb with rfl | hcb2
      · rw [hc0]; decide
      · have hn := hb2 c hcb2
        unfold notWsAt at hn
        rw [Bool.and_eq_true] at hn
        simpa using hn.1

/-- If a whitespace-containing string passes the full regex test, the
match can only be through the `$`-before-final-newline provision: the
string ends in `'\n'` and the core regex matches all but that newline. -/
theorem emailRegexMatch_ws {s : List Char} {c : Char} (hc : c ∈ s)
    (hw : isPySpace c = true) (hm : emailRegexMatch s = true) :
    s.getLast? = some '\n' ∧ emailRegexCore s.dropLast = true := by
  unfold emailRegexMatch reDollarMatch at hm
  rw [Bool.or_eq_true] at hm
  rcases hm with h1 | h2
  · rw [emailRegexCore_no_ws h1 c hc] at hw
    exact absurd hw (by decide)
  · rw [Bool.and_eq_true] at h2
    exact ⟨eq_of_beq h2.1, h2.2⟩

/-- `getdelimited`'s loop advances the cursor at least as much as it
grows the result, and never moves the cursor past the end of the
field. -/
theorem getdelimLoop_bound : ∀ (fuel : Nat) (endc : Char → Bool)
    (allowc quoted : Bool) (acc : List Char) (st : PAState),
    st.pos ≤ st.field.length →
    (getdelimLoop endc allowc fuel quoted acc st).1.length + st.pos ≤
      acc.length + (getdelimLoop endc allowc fuel quoted acc st).2.pos ∧
    (getdelimLoop endc allowc fuel quoted acc st).2.pos ≤
      st.field.length := by
  intro fuel
  induction fuel with
  | zero => intro endc allowc quoted acc st hpos; exact ⟨Nat.le_refl _, hpos⟩
  | succ fuel ih =>
    intro endc allowc quoted acc st hpos
    rw [getdelimLoop_succ]
    cases h : st.field[st.pos]? with
    | none => exact ⟨Nat.le_refl _, hpos⟩
    | some c =>
      have hlt : st.pos < st.field.length := lt_of_getElem?_some h
      dsimp only
      split
      · have := ih endc allowc false (acc ++ [c])
          { st with pos := st.pos + 1 } (by dsimp only; omega)
        dsimp only at this
        simp only [List.length_append, List.length_cons, List.length_nil]
          at this
        omega
      · split
        · dsimp only
          refine ⟨?_, ?_⟩ <;> omega
        · split
          · have h1 := ih (fun c => c = ')' || c = '\r') true false []
              { st with pos := st.pos + 1 } (by dsimp only; omega)
            have hf := getdelimLoop_field fuel
              (fun c => c = ')' || c = '\r') true false []
              { st with pos := st.pos + 1 }
            dsimp only at h1 hf
            have h2 := ih endc allowc false
              (acc ++ (getdelimLoop (fun c => c = ')' || c = '\r') true fuel
                false [] { st with pos := st.pos + 1 }).1)
              (getdelimLoop (fun c => c = ')' || c = '\r') true fuel
                false [] { st with pos := st.pos + 1 }).2
              (by rw [hf]; exact h1.2)
            simp only [List.length_append, List.length_nil] at h1 h2
            rw [hf] at h2
            try dsimp only
            omega
          · split
            · have := ih endc allowc true acc
                { st with pos := st.pos + 1 } (by dsimp only; omega)
              dsimp only at this
              omega
            · have := ih endc allowc false (acc ++ [c])
                { st with pos := st.pos + 1 } (by dsimp only; omega)
              dsimp only at this
              simp only [List.length_append, List.length_cons,
                List.length_nil] at this
              omega

/-- Everything `gotonext` collects is a space or a tab: newlines and
carriage returns are skipped without being recorded. -/
theorem gotonextLoop_chars : ∀ (fuel : Nat) (acc : List Char) (st : PAState),
    (∀ c ∈ acc, c = ' ' ∨ c = '\t') →
    ∀ c ∈ (gotonextLoop fuel acc st).1, c = ' ' ∨ c = '\t' := by
  intro fuel
  induction fuel with
  | zero => intro acc st hacc; exact hacc
  | succ fuel ih =>
    intro acc st hacc
    rw [gotonextLoop_succ]
    cases h : st.field[st.pos]? with
    | none => exact hacc
    | some c =>
      dsimp only
      split
      · rename_i hcond
        apply ih
        split
        · exact hacc
        · rename_i hnr
          intro d hd
          rcases List.mem_append.mp hd with hd1 | hd2
          · exact hacc d hd1
          · rw [List.mem_singleton] at hd2
            subst hd2
            unfold isLWSc at hcond
            simp only [Bool.or_eq_true, decide_eq_true_eq] at hcond hnr
            tauto
      · split
        · try dsimp only
          exact ih _ _ hacc
        · exact hacc

theorem gotonext_chars (fuel : Nat) (st : PAState) :
    ∀ c ∈ (gotonext fuel st).1, c = ' ' ∨ c = '\t' :=
  gotonextLoop_chars fuel [] st (by intro c hc; exact absurd hc (by simp))

theorem getatom_mem (ends : Char → Bool) (st : PAState) :
    ∀ c ∈ (getatom ends st).1, ends c = false := by
  intro c hc
  unfold getatom at hc
  dsimp only at hc
  have := List.mem_takeWhile_imp hc
  simpa using this

theorem getatom_ne_nil {ends : Char → Bool} {st : PAState} {c : Char}
    (h : st.field[st.pos]? = some c) (hc : ends c = false) :
    (getatom ends st).1 ≠ [] := by
  unfold getatom
  dsimp only
  rw [getElem?_eq_head?_drop] at h
  cases hd : st.field.drop st.pos with
  | nil => rw [hd] at h; simp at h
  | cons x xs =>
    rw [hd] at h
    simp only [List.head?_cons, Option.some.injEq] at h
    subst h
    simp [List.takeWhile_cons, hc]

theorem mem_popBlankLast {acc : List (List Char)} {p : List Char}
    (h : p ∈ popBlankLast acc) : p ∈ acc := by
  unfold popBlankLast at h
  cases hl : acc.getLast? with
  | none => rw [hl] at h; exact h
  | some lastp =>
    rw [hl] at h
    dsimp only at h
    split at h
    · exact (List.dropLast_sublist acc).subset h
    · exact h

/-- Flattening pieces that are each non-empty and do not end in a
newline yields a string that is empty or does not end in a newline. -/
theorem flatten_getLast_ne_nl {ps : List (List Char)}
    (h : ∀ p ∈ ps, p ≠ [] ∧ p.getLast? ≠ some '\n') :
    ps.flatten = [] ∨ ps.flatten.getLast? ≠ some '\n' := by
  induction ps with
  | nil => left; rfl
  | cons p rest ih =>
    right
    have hp := h p (List.mem_cons_self p rest)
    have hrest := ih (fun q hq => h q (List.mem_cons_of_mem p hq))
    rw [List.flatten_cons]
    by_cases hfr : rest.flatten = []
    · rw [hfr, List.append_nil]
      exact hp.2
    · rw [List.getLast?_append_of_ne_nil p hfr]
      rcases hrest with hnil | hlast
      · exact absurd hnil hfr
      · exact hlast

theorem mem_ite_append {acc2 : List (List Char)} {g1 : List Char}
    {p : List Char}
    (hp : p ∈ (if g1 ≠ [] then acc2 ++ [g1] else acc2)) :
    p ∈ acc2 ∨ (p = g1 ∧ g1 ≠ []) := by
  split at hp
  · rcases List.mem_append.mp hp with h1 | h2
    · exact Or.inl h1
    · rw [List.mem_singleton] at h2
      rename_i hg
      exact Or.inr ⟨h2, hg⟩
  · exact Or.inl hp

/-- A non-empty whitespace run collected by `gotonext` never ends in a
newline (it only ever holds spaces and tabs). -/
theorem gotonext_piece_ok (fuel : Nat) (st : PAState)
    (hne : (gotonext fuel st).1 ≠ []) :
    (gotonext fuel st).1 ≠ [] ∧ (gotonext fuel st).1.getLast? ≠ some '\n' := by
  refine ⟨hne, ?_⟩
  intro hl
  rcases gotonext_chars fuel st '\n' (mem_of_getLast?_some hl) with h | h <;>
    exact absurd h (by decide)

/-- Every piece collected by `getaddrspec`'s loop is non-empty and does
not end in a newline: pieces are dots, quoted strings ending in `'"'`,
atoms (which contain no CR/LF), or space/tab runs. -/
theorem getaddrspecLoop_pieces : ∀ (fuel : Nat) (acc : List (List Char))
    (st : PAState),
    (∀ p ∈ acc, p ≠ [] ∧ p.getLast? ≠ some '\n') →
    ∀ p ∈ (getaddrspecLoop fuel acc st).1,
      p ≠ [] ∧ p.getLast? ≠ some '\n' := by
  intro fuel
  induction fuel with
  | zero => intro acc st hacc; exact hacc
  | succ fuel ih =>
    intro acc st hacc
    rw [getaddrspecLoop_succ]
    cases h : st.field[st.pos]? with
    | none => exact hacc
    | some c =>
      dsimp only
      split
      · try dsimp only
        apply ih
        intro p hp
        rcases List.mem_append.mp hp with hp1 | hp2
        · exact hacc p (mem_popBlankLast hp1)
        · rw [List.mem_singleton] at hp2
          subst hp2
          exact ⟨by simp, by decide⟩
      · split
        · try dsimp only
          apply ih
          intro p hp
          rcases mem_ite_append hp with hp1 | ⟨rfl, hg⟩
          · rcases List.mem_append.mp hp1 with hp2 | hp3
            · exact hacc p hp2
            · rw [List.mem_singleton] at hp3
              subst hp3
              refine ⟨by simp, ?_⟩
              rw [List.getLast?_concat]
              decide
          · exact gotonext_piece_ok _ _ hg
        · split
          · intro p hp
            exact hacc p (mem_popBlankLast hp)
          · try dsimp only
            apply ih
            intro p hp
            rcases mem_ite_append hp with hp1 | ⟨rfl, hg⟩
            · rcases List.mem_append.mp hp1 with hp2 | hp3
              · exact hacc p hp2
              · rw [List.mem_singleton] at hp3
                subst hp3
                rename_i hc1 hc2 hc3
                refine ⟨getatom_ne_nil h (Bool.eq_false_iff.mpr hc3), ?_⟩
                intro hl
                have := getatom_mem isAtomEnd st '\n' (mem_of_getLast?_some hl)
                exact absurd this (by decide)
            · exact gotonext_piece_ok _ _ hg

theorem getdomainliteral_piece (fuel : Nat) (st : PAState) :
    (getdomainliteral fuel st).1 ≠ [] ∧
    (getdomainliteral fuel st).1.getLast? = some ']' := by
  unfold getdomainliteral
  dsimp only
  refine ⟨by simp, ?_⟩
  rw [List.getLast?_concat]

/-- The domain accumulated by `getdomain`'s loop is empty or does not
end in a newline. -/
theorem getdomainLoop_ok : ∀ (fuel : Nat) (acc : List Char) (st : PAState),
    (acc = [] ∨ acc.getLast? ≠ some '\n') →
    (getdomainLoop fuel acc st).1 = [] ∨
      (getdomainLoop fuel acc st).1.getLast? ≠ some '\n' := by
  intro fuel
  induction fuel with
  | zero => intro acc st hacc; exact hacc
  | succ fuel ih =>
    intro acc st hacc
    rw [getdomainLoop_succ]
    cases h : st.field[st.pos]? with
    | none => exact hacc
    | some c =>
      dsimp only
      split
      · exact ih _ _ hacc
      · split
        · try dsimp only
          exact ih _ _ hacc
        · split
          · try dsimp only
            apply ih
            right
            rw [List.getLast?_append_of_ne_nil acc
                (getdomainliteral_piece fuel st).1,
              (getdomainliteral_piece fuel st).2]
            decide
          · split
            · apply ih
              right
              rw [List.getLast?_concat]
              decide
            · split
              · exact Or.inl rfl
              · split
                · exact hacc
                · try dsimp only
                  apply ih
                  right
                  rename_i h1 h2 h3 h4 h5 h6
                  have hne := getatom_ne_nil h (Bool.eq_false_iff.mpr h6)
                  rw [List.getLast?_append_of_ne_nil acc hne]
                  intro hl
                  have := getatom_mem isAtomEnd st '\n'
                    (mem_of_getLast?_some hl)
                  exact absurd this (by decide)

theorem getdomainFn_ok (fuel : Nat) (st : PAState) :
    (getdomainFn fuel st).1 = [] ∨
      (getdomainFn fuel st).1.getLast? ≠ some '\n' :=
  getdomainLoop_ok fuel [] st (Or.inl rfl)

/-- The address string built by `getaddrspec` is empty or does not end
in a newline. -/
theorem getaddrspecFn_ok (fuel : Nat) (st : PAState) :
    (getaddrspecFn fuel st).1 = [] ∨
      (getaddrspecFn fuel st).1.getLast? ≠ some '\n' := by
  unfold getaddrspecFn
  try dsimp only
  have hp := getaddrspecLoop_pieces fuel [] (gotonext fuel st).2
    (fun p hp => absurd hp (by simp))
  have hfl := flatten_getLast_ne_nl hp
  set r := getaddrspecLoop fuel [] (gotonext fuel st).2 with hr
  cases hm : r.2.field[r.2.pos]? with
  | none => exact hfl
  | some c =>
    dsimp only
    split
    · try dsimp only
      set d := getdomainFn fuel
        (gotonext fuel { r.2 with pos := r.2.pos + 1 }).2 with hd2
      split
      · exact Or.inl rfl
      · rename_i hdne
        right
        rcases getdomainFn_ok fuel
            (gotonext fuel { r.2 with pos := r.2.pos + 1 }).2 with h0 | hlast
        · rw [← hd2] at h0; exact absurd h0 hdne
        · rw [← hd2] at hlast
          rw [List.getLast?_append_of_ne_nil _ (by simp),
            show ('@' :: d.1) = ['@'] ++ d.1 from rfl,
            List.getLast?_append_of_ne_nil _ hdne]
          exact hlast
    · exact hfl

/-- The address returned by `getrouteaddr` is empty or does not end in a
newline. -/
theorem getrouteaddrLoop_ok : ∀ (fuel : Nat) (expectroute : Bool)
    (adlist : List Char) (st : PAState),
    (adlist = [] ∨ adlist.getLast? ≠ some '\n') →
    (getrouteaddrLoop fuel expectroute adlist st).1 = [] ∨
      (getrouteaddrLoop fuel expectroute adlist st).1.getLast? ≠
        some '\n' := by
  intro fuel
  induction fuel with
  | zero => intro e a st had; exact had
  | succ fuel ih =>
    intro e a st had
    rw [getrouteaddrLoop_succ]
    cases h : st.field[st.pos]? with
    | none => exact had
    | some c =>
      dsimp only
      split
      · try dsimp only
        exact ih _ _ _ had
      · split
        · exact had
        · split
          · try dsimp only
            exact ih _ _ _ had
          · split
            · try dsimp only
              exact ih _ _ _ had
            · try dsimp only
              exact getaddrspecFn_ok fuel st

theorem getrouteaddrFn_ok (fuel : Nat) (st : PAState) :
    (getrouteaddrFn fuel st).1 = [] ∨
      (getrouteaddrFn fuel st).1.getLast? ≠ some '\n' := by
  unfold getrouteaddrFn
  cases h : st.field[st.pos]? with
  | none => exact Or.inl rfl
  | some c =>
    dsimp only
    split
    · try dsimp only
      exact getrouteaddrLoop_ok fuel false [] _ (Or.inl rfl)
    · exact Or.inl rfl

/-- Cursor advance of `getquote` when the cursor sits on `'"'`: the
collected text is shorter than the cursor advance, and the cursor stays
within the field. -/
theorem getquote_bound (fuel : Nat) {st : PAState} {c : Char}
    (h : st.field[st.pos]? = some c) (hc : c = '"') :
    (getquote fuel st).1.length + st.pos + 1 ≤ (getquote fuel st).2.pos ∧
    (getquote fuel st).2.pos ≤ st.field.length := by
  have hlt := lt_of_getElem?_some h
  have hb := getdelimLoop_bound fuel (fun c => c = '"' || c = '\r') false false
    [] { st with pos := st.pos + 1 } (by dsimp only; omega)
  dsimp only at hb
  simp only [List.length_nil] at hb
  unfold getquote getdelimited
  rw [h]
  dsimp only
  rw [if_pos hc]
  refine ⟨?_, ?_⟩ <;> omega

/-- Every phrase piece either contains no newline (atoms, comments
skipped, space runs skipped) or is strictly shorter than the whole field
(quoted strings). -/
theorem getphraselistLoop_pieces (f : List Char) : ∀ (fuel : Nat)
    (acc : List (List Char)) (st : PAState), st.field = f →
    (∀ p ∈ acc, '\n' ∉ p ∨ p.length < f.length) →
    ∀ p ∈ (getphraselistLoop fuel acc st).1,
      '\n' ∉ p ∨ p.length < f.length := by
  intro fuel
  induction fuel with
  | zero => intro acc st hf hacc; exact hacc
  | succ fuel ih =>
    intro acc st hf hacc
    rw [getphraselistLoop_succ]
    cases h : st.field[st.pos]? with
    | none => exact hacc
    | some c =>
      dsimp only
      split
      · exact ih acc _ (by dsimp only; exact hf) hacc
      · split
        · try dsimp only
          rename_i h1 hcq
          have hq := getquote_bound fuel h hcq
          rw [hf] at hq
          have hlt := lt_of_getElem?_some h
          rw [hf] at hlt
          exact ih (acc ++ [(getquote fuel st).1]) (getquote fuel st).2
            (by rw [getquote_field]; exact hf)
            (by intro p hp
                rcases List.mem_append.mp hp with h1 | h2
                · exact hacc p h1
                · rw [List.mem_singleton] at h2
                  subst h2
                  right
                  omega)
        · split
          · try dsimp only
            exact ih acc _ (by dsimp only; rw [getcomment_field]; exact hf)
              hacc
          · split
            · exact hacc
            · try dsimp only
              refine ih (acc ++ [(getatom isPhraseEnd st).1])
                (getatom isPhraseEnd st).2
                (by rw [getatom_field]; exact hf) ?_
              intro p hp
              rcases List.mem_append.mp hp with h1 | h2
              · exact hacc p h1
              · rw [List.mem_singleton] at h2
                subst h2
                left
                intro hmem
                have := getatom_mem isPhraseEnd st '\n' hmem
                exact absurd this (by decide)

/-- `getaddress` and its group loop never change the field. -/
theorem getaddress_group_field : ∀ fuel : Nat,
    (∀ st : PAState, (getaddressFn fuel st).2.field = st.field) ∧
    (∀ (acc : List (List Char × List Char)) (st : PAState),
      (groupLoop fuel acc st).2.field = st.field) := by
  intro fuel
  induction fuel with
  | zero => exact ⟨fun st => rfl, fun acc st => rfl⟩
  | succ fuel ih =>
    constructor
    · intro st
      rw [getaddressFn]
      dsimp only
      split <;> try split <;> try split <;> try split <;> try split <;>
        try split <;> try split <;> try split
      all_goals try dsimp only
      all_goals try simp only [ih.2, getaddrspecFn_field,
        getrouteaddrFn_field, gotonext_field, getphraselistLoop_field]
    · intro acc st
      rw [groupLoop]
      dsimp only
      split
      · rfl
      · split <;> try split
        all_goals try dsimp only
        all_goals try rw [ih.2]
        all_goals try simp only [ih.1, gotonext_field]

/-- A string that is empty or does not end in a newline differs from a
field that does end in one. -/
theorem addr_ne_of_ok {x f : List Char} (hok : x = [] ∨ x.getLast? ≠ some '\n')
    (hfne : f ≠ []) (hfl : f.getLast? = some '\n') : x ≠ f := by
  intro he
  subst he
  rcases hok with h0 | h1
  · exact hfne h0
  · exact h1 hfl

/-- The heart of the whitespace argument: when the parsed field ends in
a newline, no (realname, address) pair returned by `getaddress` (or its
group loop) can have the whole field as its address: a phrase alone is
newline-free or shorter than the field, and an addr-spec or route
address never ends in a newline. -/
theorem getaddress_group_ok (f : List Char) (hfl : f.getLast? = some '\n') :
    ∀ fuel : Nat,
    (∀ st : PAState, st.field = f →
      ∀ pr ∈ (getaddressFn fuel st).1, pr.2 ≠ f) ∧
    (∀ (acc : List (List Char × List Char)) (st : PAState), st.field = f →
      (∀ pr ∈ acc, pr.2 ≠ f) →
      ∀ pr ∈ (groupLoop fuel acc st).1, pr.2 ≠ f) := by
  have hfne : f ≠ [] := fun h0 => by
    rw [h0] at hfl; exact absurd hfl (by simp)
  have hnl : '\n' ∈ f := mem_of_getLast?_some hfl
  intro fuel
  induction fuel with
  | zero =>
    constructor
    · intro st hf pr hpr
      rw [show getaddressFn 0 st = ([], st) from rfl] at hpr
      exact absurd hpr (by simp)
    · intro acc st hf hacc pr hpr
      rw [show groupLoop 0 acc st = (acc, st) from rfl] at hpr
      exact hacc pr hpr
  | succ fuel ih =>
    constructor
    · intro st hf pr hpr
      have hf0 : (gotonext fuel
          { st with commentlist := ([] : List (List Char)) }).2.field = f := by
        rw [gotonext_field]; exact hf
      have hph := getphraselistLoop_pieces f fuel []
        (gotonext fuel { st with commentlist := ([] : List (List Char)) }).2
        hf0 (fun q hq => absurd hq (by simp))
      have hplist : ∀ q ∈ (getphraselistLoop fuel []
          (gotonext fuel
            { st with commentlist := ([] : List (List Char)) }).2).1,
          q ≠ f := by
        intro q hq
        rcases hph q hq with hq1 | hq2
        · intro he; rw [he] at hq1; exact hq1 hnl
        · intro he; rw [he] at hq2; omega
      have hgfield : ({ (gotonext fuel (getphraselistLoop fuel []
          (gotonext fuel
            { st with commentlist := ([] : List (List Char)) }).2).2).2 with
          pos := (gotonext fuel (getphraselistLoop fuel []
            (gotonext fuel
              { st with commentlist := ([] : List (List Char)) }).2).2).2.pos
            + 1 }).field = f := by
        dsimp only
        simp only [gotonext_field, getphraselistLoop_field]
        try dsimp only
        exact hf
      have hemptyacc : ∀ q ∈ ([] : List (List Char × List Char)),
          q.2 ≠ f := fun q hq => absurd hq (by simp)
      rw [getaddressFn] at hpr
      dsimp only at hpr
      split at hpr <;> try split at hpr <;> try split at hpr <;>
        try split at hpr <;> try split at hpr <;> try split at hpr <;>
        try split at hpr <;> try split at hpr
      all_goals try dsimp only at hpr
      all_goals try (exact absurd hpr (List.not_mem_nil pr))
      all_goals try (rw [List.mem_singleton] at hpr
                     subst hpr)
      all_goals try (try dsimp only
                     exact addr_ne_of_ok (getaddrspecFn_ok fuel _) hfne hfl)
      all_goals try (try dsimp only
                     exact addr_ne_of_ok (getrouteaddrFn_ok fuel _) hfne hfl)
      all_goals try (exact ih.2 [] _ hgfield hemptyacc pr hpr)
      all_goals try (rename_i p0 rest heq
                     try dsimp only
                     exact hplist p0 (heq ▸ List.mem_cons_self p0 rest))
    · intro acc st hf hacc pr hpr
      have hgf : ((gotonext fuel st).2).field = f := by
        rw [gotonext_field]; exact hf
      have haf : ((getaddressFn fuel (gotonext fuel st).2).2).field = f := by
        rw [(getaddress_group_field fuel).1, gotonext_field]; exact hf
      have hacc2 : ∀ q ∈ acc ++ (getaddressFn fuel (gotonext fuel st).2).1,
          q.2 ≠ f := by
        intro q hq
        rcases List.mem_append.mp hq with hq1 | hq2
        · exact hacc q hq1
        · exact ih.1 _ hgf q hq2
      rw [groupLoop] at hpr
      dsimp only at hpr
      split at hpr
      · exact hacc pr hpr
      · split at hpr <;> try split at hpr
        all_goals try dsimp only at hpr
        all_goals try (exact hacc pr hpr)
        all_goals try (exact ih.2 _ _ haf hacc2 pr hpr)

/-- Lifting the previous invariant through `getaddrlist`. -/
theorem getaddrlistLoop_ok (f : List Char) (hfl : f.getLast? = some '\n') :
    ∀ (fuel : Nat) (acc : List (List Char × List Char)) (st : PAState),
    st.field = f → (∀ pr ∈ acc, pr.2 ≠ f) →
    ∀ pr ∈ (getaddrlistLoop fuel acc st).1, pr.2 ≠ f := by
  have hfne : f ≠ [] := fun h0 => by
    rw [h0] at hfl; exact absurd hfl (by simp)
  intro fuel
  induction fuel with
  | zero => intro acc st hf hacc; exact hacc
  | succ fuel ih =>
    intro acc st hf hacc pr hpr
    rw [getaddrlistLoop_succ] at hpr
    split at hpr
    · exact hacc pr hpr
    · dsimp only at hpr
      refine ih _ _ ?_ ?_ pr hpr
      · rw [(getaddress_group_field fuel).1]; exact hf
      · intro q hq
        split at hq
        · rcases List.mem_append.mp hq with hq1 | hq2
          · exact hacc q hq1
          · exact (getaddress_group_ok f hfl fuel).1 st hf q hq2
        · rcases List.mem_append.mp hq with hq1 | hq2
          · exact hacc q hq1
          · rw [List.mem_singleton] at hq2
            subst hq2
            exact fun he => hfne he.symm

/-- When the input ends in a newline, `parseaddr` never returns the
whole input as the address part. -/
theorem parseaddr_ne_of_nl {s : List Char} (hfl : s.getLast? = some '\n') :
    (parseaddr s).2 ≠ s := by
  have hsne : s ≠ [] := fun h0 => by
    rw [h0] at hfl; exact absurd hfl (by simp)
  unfold parseaddr
  rw [if_neg hsne]
  cases hm : (getaddrlistLoop ((s.length + 2) * (s.length + 2)) []
      ⟨s, 0, []⟩).1 with
  | nil => exact fun h => hsne h.symm
  | cons p rest =>
    dsimp only
    exact getaddrlistLoop_ok s hfl _ [] ⟨s, 0, []⟩ rfl
      (fun q hq => absurd hq (by simp)) p
      (by rw [hm]; exact List.mem_cons_self p rest)

/-- A string containing any Python whitespace character never passes
`validate_email`: if the regex matched at all it was via a trailing
newline, and then `parseaddr` cannot return the input unchanged. -/
theorem validate_email_false_of_ws {s : List Char} {c : Char} (hc : c ∈ s)
    (hw : isPySpace c = true) : validate_email s = false := by
  cases hm : emailRegexMatch s with
  | false => exact validate_email_false_of_regex hm
  | true =>
    obtain ⟨hfl, _⟩ := emailRegexMatch_ws hc hw hm
    have hsne : s ≠ [] := fun h0 => by
      rw [h0] at hfl; exact absurd hfl (by simp)
    have hne := parseaddr_ne_of_nl hfl
    unfold validate_email
    rw [if_neg hsne]
    dsimp only
    rw [if_pos (by simp [hne])]

/-! ### Claims C10, C4, C3 -/

/-- Claim C10: `sanitize_otp` is idempotent — re-sanitizing an
already-sanitized OTP never changes it, so the sanitization in
`InstallerSession.submit_otp` composed with the one in
`Authenticator.verify_otp` submits the same value a single sanitization
would. -/
theorem C10_sanitize_otp_idempotent :
    ∀ s : List Char, sanitize_otp (sanitize_otp s) = sanitize_otp s := by
  intro s
  conv_lhs => rw [sanitize_otp]
  rw [pyStrip_sanitize_otp, map_pyUpper_sanitize_otp,
    filter_ne_space_sanitize_otp]

/-- Claim C4 is false as stated: `sanitize_otp` does not remove all
internal whitespace — `str.replace(" ", "")` removes only the space
character U+0020, so an internal TAB survives: on input `"AB\tCD12"` the
output still contains a whitespace character (indeed is unchanged). -/
theorem C4_counterexample :
    (sanitize_otp ("AB\tCD12".data)).any isPySpace = true ∧
    sanitize_otp ("AB\tCD12".data) = "AB\tCD12".data := by
  constructor
  · decide
  · decide

/-- Claim C4, amended: `sanitize_otp` uppercases (ASCII case map), strips
all leading and trailing whitespace, and removes every space character
U+0020; internal whitespace other than U+0020 (e.g. TAB) is preserved,
not removed.  Stated as: the result never contains a space, is unchanged
by uppercasing, is unchanged by stripping; the concrete example
`"ab cd 12 34" → "ABCD1234"` holds; and the internal TAB of `"AB\tCD12"`
is preserved. -/
theorem C4_sanitize_otp_amended :
    (∀ s : List Char,
      (sanitize_otp s).all (fun c => c ≠ ' ') = true ∧
      (sanitize_otp s).map pyUpper = sanitize_otp s ∧
      pyStrip (sanitize_otp s) = sanitize_otp s) ∧
    sanitize_otp ("ab cd 12 34".data) = "ABCD1234".data ∧
    sanitize_otp ("AB\tCD12".data) = "AB\tCD12".data := by
  refine ⟨fun s => ⟨sanitize_otp_all_ne_space s, map_pyUpper_sanitize_otp s,
    pyStrip_sanitize_otp s⟩, by decide, by decide⟩

/-- Claim C3 is false as stated: `re.match(r"^[0-9A-Z]{8}$", otp)` also
accepts eight uppercase alphanumerics followed by one trailing newline,
because `$` matches just before a final `'\n'`; so `validate_otp` accepts
the 9-character string `"ABCD1234\n"`. -/
theorem C3_counterexample :
    validate_otp ("ABCD1234\n".data) = true ∧
    ("ABCD1234\n".data).length = 9 := by
  constructor
  · decide
  · decide

/-- Claim C3, amended: `validate_otp s` is true iff `s` is exactly 8
characters, each an uppercase letter `A`-`Z` or digit `0`-`9`, or such an
8-character string followed by a single trailing `'\n'` (an artifact of
`$` in the Python regex).  The concrete examples hold: `"ABCD1234"` is
accepted, `"ABCD123"` and `"ABCD-123"` are rejected. -/
theorem C3_validate_otp_amended :
    (∀ s : List Char,
      validate_otp s = true ↔
        ((s.length = 8 ∧ s.all isUpperAlnum = true) ∨
         (s.length = 9 ∧ s.dropLast.all isUpperAlnum = true ∧
          s.getLast? = some '\n'))) ∧
    validate_otp ("ABCD1234".data) = true ∧
    validate_otp ("ABCD123".data) = false ∧
    validate_otp ("ABCD-123".data) = false := by
  refine ⟨fun s => ?_, by decide, by decide, by decide⟩
  unfold validate_otp reDollarMatch
  by_cases hs : s = []
  · subst hs
    simp
  · rw [if_neg hs]
    have hlen : s.length ≠ 0 := by
      intro hc
      exact hs (List.length_eq_zero.mp hc)
    have hdl : s.dropLast.length = s.length - 1 := List.length_dropLast s
    simp only [Bool.or_eq_true, Bool.and_eq_true, beq_iff_eq]
    constructor
    · rintro (⟨h8, hall⟩ | ⟨hnl, h8, hall⟩)
      · exact Or.inl ⟨by exact_mod_cast h8, hall⟩
      · refine Or.inr ⟨?_, hall, by simpa using hnl⟩
        have : s.dropLast.length = 8 := by exact_mod_cast h8
        omega
    · rintro (⟨h8, hall⟩ | ⟨h9, hall, hnl⟩)
      · exact Or.inl ⟨by exact_mod_cast h8, hall⟩
      · refine Or.inr ⟨by simpa using hnl, ?_, hall⟩
        have : s.dropLast.length = 8 := by omega
        exact_mod_cast this

/-- Counterexample to claim C5: control characters are NOT rejected by
`validate_email` — the string `user@ex.co␁m` (with the control byte
U+0001 inside the top-level domain) validates as true, although the
claim requires every string containing control characters to be
rejected.  Conversely, a string shaped like `local@domain.tld` but
containing a special (`"a,b@c.d"`) is rejected. -/
theorem C5_counterexample :
    validate_email ("user@ex.co\x01m".data) = true ∧
    ('\x01' ∈ "user@ex.co\x01m".data ∧ '\x01'.toNat < 32) ∧
    validate_email ("a,b@c.d".data) = false := by decide

/-- Claim C5, amended: `validate_email` accepts every string
`local@domain.tld` whose three parts are non-empty and consist of plain
characters (no Python whitespace, none of the specials
`()<>@,:;."[]` and no CR/LF); it rejects every string without `'@'`,
every string with no `'.'` after the first `'@'`, and every string
containing any Python whitespace character anywhere.  Control characters
are not rejected (see the counterexample).  The concrete examples hold:
`"user@example.com"` is accepted, `"user@example"` and
`"user @example.com"` are rejected. -/
theorem C5_validate_email_amended :
    (∀ l m t : List Char,
      (∀ c ∈ l, isPlainc c = true) → l ≠ [] →
      (∀ c ∈ m, isPlainc c = true) → m ≠ [] →
      (∀ c ∈ t, isPlainc c = true) → t ≠ [] →
      validate_email (l ++ '@' :: (m ++ '.' :: t)) = true) ∧
    (∀ s : List Char, '@' ∉ s → validate_email s = false) ∧
    (∀ s : List Char,
      '.' ∉ s.drop ((s.takeWhile (fun c => c ≠ '@')).length + 1) →
      validate_email s = false) ∧
    (∀ (s : List Char) (c : Char), c ∈ s → isPySpace c = true →
      validate_email s = false) ∧
    validate_email ("user@example.com".data) = true ∧
    validate_email ("user@example".data) = false ∧
    validate_email ("user @example.com".data) = false := by
  refine ⟨?_, ?_, ?_, ?_, by decide, by decide, by decide⟩
  · intro l m t hl hlne hm hmne ht htne
    exact validate_email_grammar hl hlne hm hmne ht htne
  · intro s h
    exact validate_email_false_of_regex (emailRegexMatch_false_of_noAt h)
  · intro s h
    exact validate_email_false_of_regex (emailRegexMatch_false_of_noDot h)
  · intro s c hc hw
    exact validate_email_false_of_ws hc hw

/-- Witness for the amended claim C5, instantiating each universally
quantified conjunct at a concrete string. -/
theorem C5_validate_email_amended_witness :
    validate_email ("ab@cd.ef".data) = true ∧
    validate_email ("nodomain".data) = false ∧
    validate_email ("user@nodot".data) = false ∧
    validate_email ("user @example.org".data) = false := by
  refine ⟨?_, ?_, ?_, ?_⟩
  · exact C5_validate_email_amended.1 "ab".data "cd".data "ef".data
      (by decide) (by decide) (by decide) (by decide) (by decide) (by decide)
  · exact C5_validate_email_amended.2.1 "nodomain".data (by decide)
  · exact C5_validate_email_amended.2.2.1 "user@nodot".data (by decide)
  · exact C5_validate_email_amended.2.2.2.1 "user @example.org".data ' '
      (by decide) (by decide)

end SyftInstaller
